import Mathlib

/-!
Verification development for the batching-and-scheduling engine of the
CodeQL remediation orchestrator (TypeScript sources: batchingEngine.ts,
devinOrchestrator.ts, types.ts).

The embedding is shallow: TypeScript values become Lean structures, the pure
partitioner functions become Lean functions, and the orchestrator's polling
loop becomes a labelled transition system whose environment inputs (remote
task creation results, poll snapshots, timeout expiry, CI observations) are
step parameters.  JavaScript numbers are modelled as Int, JS stable
Array.prototype.sort as insertion sort, and JS insertion-ordered string-keyed
objects/Maps as association lists (the keys used by this program are
non-integer-like strings, for which JS guarantees insertion order).
-/

namespace Cognition

/-- Severity levels, from types.ts. -/
inductive Severity
  | critical
  | high
  | medium
  | low
  | warning
  | note
  | error
  deriving DecidableEq, Repr, Fintype

/-- Batching strategies, from types.ts. -/
inductive BatchingStrategy
  | severityThenCwe
  | severityOnly
  | byFile
  | byCwe
  | byComplexity
  deriving DecidableEq, Repr

/-- Batch status union type, from types.ts (AlertBatch.status). -/
inductive BatchStatus
  | pending
  | in_progress
  | completed
  | failed
  deriving DecidableEq, Repr

/-- Source location of an alert instance, from types.ts
(start_column and end_column are never read by the engine and are omitted). -/
structure AlertLocation where
  path : String
  start_line : Int
  end_line : Int
  deriving DecidableEq, Repr

/-- The rule payload of a CodeQL alert; only the severity is read by the
batching engine, the other fields (id, name, description, tags) are
presentation-only strings and are omitted. -/
structure AlertRule where
  severity : Severity
  deriving DecidableEq, Repr

/-- The most_recent_instance payload; only the location is read. -/
structure AlertInstance where
  location : AlertLocation
  deriving DecidableEq, Repr

/-- A CodeQL alert, from types.ts.  The fields the batching engine reads are
number (identity in examples), rule.severity, most_recent_instance.location
and the optional cwe list; the remaining fields are presentation-only. -/
structure CodeQLAlert where
  number : Nat
  rule : AlertRule
  most_recent_instance : AlertInstance
  cwe : Option (List String)
  deriving DecidableEq, Repr

/-- An alert batch, from types.ts.  The id field of the source is a random
UUID (uuidv4 uses Math.random); it is modelled as the empty string by the
partitioner, which never reads it, and as an environment-chosen string in the
orchestrator model.  Timestamp strings (startedAt, completedAt) and
sessionUrl/confidenceScore are not read by any verified claim and are
omitted. -/
structure AlertBatch where
  id : String
  alerts : List CodeQLAlert
  strategy : BatchingStrategy
  groupKey : String
  severity : Severity
  priority : Int
  status : BatchStatus
  sessionId : Option String := none
  prUrl : Option String := none
  deriving DecidableEq, Repr

/-- The severity iteration order used by batchBySeverityThenCWE and
batchBySeverityOnly and by getHighestSeverity (batchingEngine.ts lines 30,
61, 220). -/
def severityOrderList : List Severity :=
  [.critical, .high, .medium, .low, .warning, .note, .error]

/-- The rank table of sortBySeverity (batchingEngine.ts lines 204-212).
Note that error maps to 1, the same rank as high. -/
def sevRankJS : Severity → Nat
  | .critical => 0
  | .high => 1
  | .medium => 2
  | .low => 3
  | .warning => 4
  | .note => 5
  | .error => 1

/-- Severity base scores of calculatePriority (batchingEngine.ts lines
232-240). -/
def severityScore : Severity → Int
  | .critical => 100
  | .high => 80
  | .medium => 60
  | .low => 40
  | .warning => 20
  | .note => 10
  | .error => 80

/-- Lowercase name of a severity, as interpolated into group keys. -/
def severityName : Severity → String
  | .critical => "critical"
  | .high => "high"
  | .medium => "medium"
  | .low => "low"
  | .warning => "warning"
  | .note => "note"
  | .error => "error"

/-- Complexity buckets of estimateComplexity. -/
inductive Complexity
  | simple
  | moderate
  | complex
  deriving DecidableEq, Repr

/-- Name of a complexity bucket, as interpolated into group keys. -/
def complexityName : Complexity → String
  | .simple => "simple"
  | .moderate => "moderate"
  | .complex => "complex"

/-- Complexity bonus table of calculatePriority (batchingEngine.ts lines
247-251). -/
def complexityBonus : Complexity → Int
  | .simple => 15
  | .moderate => 5
  | .complex => -10

/-- calculatePriority (batchingEngine.ts lines 231-256): severity base score,
plus min(alertCount * 2, 20), plus the complexity bonus when a complexity
bucket is passed (only the by-complexity strategy passes one). -/
def calculatePriority (severity : Severity) (alertCount : Nat)
    (complexity : Option Complexity) : Int :=
  severityScore severity + min ((alertCount : Int) * 2) 20 +
    (match complexity with
     | some c => complexityBonus c
     | none => 0)

/-- The loop of chunkArray, with an explicit bound on the number of
iterations so the recursion is structural (kernel-reducible): each iteration
takes one chunk of at most size elements off the front.  With fuel at least
the list's length and a positive size the zero-fuel case is unreachable. -/
def chunkArrayFuel (size : Nat) : Nat → List α → List (List α)
  | _, [] => []
  | 0, _ :: _ => []
  | fuel + 1, a :: t =>
    ((a :: t).take size) :: chunkArrayFuel size fuel ((a :: t).drop size)

/-- chunkArray (batchingEngine.ts lines 291-299): split a list into
consecutive chunks of at most size elements, preserving order.  The source's
loop (i += size) never terminates when size = 0; the verified claims all
assume a positive maxBatchSize, and this embedding returns [] in that
degenerate case.  The loop runs at most length iterations, which the fuel
argument makes explicit. -/
def chunkArray (l : List α) (size : Nat) : List (List α) :=
  if size = 0 then [] else chunkArrayFuel size l.length l

/-- One step of the insertion-ordered grouping used by groupByCWE and the
per-directory / per-complexity grouping loops: append the element to its
group when the key is already present, otherwise create the group at the
back (matching JS object insertion order for non-integer-like string keys). -/
def insertGrouped (k : String) (a : α) :
    List (String × List α) → List (String × List α)
  | [] => [(k, [a])]
  | (k', l) :: rest =>
    if k' = k then (k', l ++ [a]) :: rest
    else (k', l) :: insertGrouped k a rest

/-- Group a list by a string key, preserving insertion order of both groups
and group members, as a JS object built with push does. -/
def groupByKeyFn (key : α → String) (l : List α) : List (String × List α) :=
  l.foldl (fun acc a => insertGrouped (key a) a acc) []

/-- The grouping key of groupByCWE (batchingEngine.ts line 192):
alert.cwe?.[0] || 'UNKNOWN'.  A missing list, an empty list and an empty
first string are all falsy in JS and fall back to UNKNOWN. -/
def cweKey (a : CodeQLAlert) : String :=
  match a.cwe with
  | some (c :: _) => if c = "" then "UNKNOWN" else c
  | _ => "UNKNOWN"

/-- groupByCWE (batchingEngine.ts lines 188-201). -/
def groupByCWE (alerts : List CodeQLAlert) : List (String × List CodeQLAlert) :=
  groupByKeyFn cweKey alerts

/-- The relation of the JS comparator in sortBySeverity (ascending rank). -/
def sevRankLe (a b : CodeQLAlert) : Prop :=
  sevRankJS a.rule.severity ≤ sevRankJS b.rule.severity

instance : DecidableRel sevRankLe := fun a b =>
  inferInstanceAs (Decidable (sevRankJS a.rule.severity ≤ sevRankJS b.rule.severity))

instance : IsTotal CodeQLAlert sevRankLe :=
  ⟨fun a b => Nat.le_total (sevRankJS a.rule.severity) (sevRankJS b.rule.severity)⟩

instance : IsTrans CodeQLAlert sevRankLe :=
  ⟨fun _ _ _ h1 h2 => Nat.le_trans h1 h2⟩

/-- sortBySeverity (batchingEngine.ts lines 203-217): stable ascending sort
by the rank table (JS Array.prototype.sort is stable). -/
def sortBySeverity (alerts : List CodeQLAlert) : List CodeQLAlert :=
  List.insertionSort sevRankLe alerts

/-- getHighestSeverity (batchingEngine.ts lines 219-229): first severity of
the fixed order present among the alerts, medium when none is (only possible
for an empty list). -/
def getHighestSeverity (alerts : List CodeQLAlert) : Severity :=
  match severityOrderList.find? (fun sev => alerts.any (fun a => a.rule.severity = sev)) with
  | some sev => sev
  | none => .medium

/-- The descending-priority relation of the final sort
(b.priority - a.priority comparator). -/
def priorityGe (a b : AlertBatch) : Prop := b.priority ≤ a.priority

instance : DecidableRel priorityGe := fun a b =>
  inferInstanceAs (Decidable (b.priority ≤ a.priority))

instance : IsTotal AlertBatch priorityGe :=
  ⟨fun a b => Int.le_total b.priority a.priority⟩

instance : IsTrans AlertBatch priorityGe :=
  ⟨fun _ _ _ h1 h2 => Int.le_trans h2 h1⟩

/-- The final sort of every strategy: stable descending sort by priority
(ties keep emission order, as JS stable sort does). -/
def sortByPriorityDesc (l : List AlertBatch) : List AlertBatch :=
  List.insertionSort priorityGe l

/-- The -partN suffix of group keys, appended when a group spans more than
one chunk (i is the 0-based chunk index, as in the source loop). -/
def partSuffix (numChunks i : Nat) : String :=
  if 1 < numChunks then "-part" ++ toString (i + 1) else ""

/-- The engine's configuration, from the BatchingEngine constructor. -/
structure BatchingEngine where
  strategy : BatchingStrategy
  maxBatchSize : Nat
  deriving DecidableEq, Repr

/-- batchBySeverityThenCWE (batchingEngine.ts lines 29-58): iterate the fixed
severity order, group each severity's alerts by CWE, chunk each group, build
one batch per chunk, and finally stable-sort descending by priority.  The
source's continue on an empty severity group is the identity here, since an
empty group produces no CWE groups and hence no batches. -/
def BatchingEngine.batchBySeverityThenCWE (e : BatchingEngine)
    (alerts : List CodeQLAlert) : List AlertBatch :=
  sortByPriorityDesc <|
    severityOrderList.flatMap fun severity =>
      let severityAlerts := alerts.filter (fun a => a.rule.severity = severity)
      (groupByCWE severityAlerts).flatMap fun g =>
        let chunks := chunkArray g.2 e.maxBatchSize
        chunks.enum.map fun ic =>
          { id := ""
            alerts := ic.2
            strategy := e.strategy
            groupKey := severityName severity ++ "-" ++ g.1 ++ partSuffix chunks.length ic.1
            severity := severity
            priority := calculatePriority severity ic.2.length none
            status := .pending }

/-- batchBySeverityOnly (batchingEngine.ts lines 60-85): chunk each severity
group directly, then stable-sort descending by priority. -/
def BatchingEngine.batchBySeverityOnly (e : BatchingEngine)
    (alerts : List CodeQLAlert) : List AlertBatch :=
  sortByPriorityDesc <|
    severityOrderList.flatMap fun severity =>
      let severityAlerts := alerts.filter (fun a => a.rule.severity = severity)
      let chunks := chunkArray severityAlerts e.maxBatchSize
      chunks.enum.map fun ic =>
        { id := ""
          alerts := ic.2
          strategy := e.strategy
          groupKey := severityName severity ++ partSuffix chunks.length ic.1
          severity := severity
          priority := calculatePriority severity ic.2.length none
          status := .pending }

/-- The directory key of batchByFile (batchingEngine.ts line 92):
path.split('/').slice(0, -1).join('/') || '/'.  The empty join (a path with
no directory part) is falsy in JS and falls back to "/". -/
def directoryKey (path : String) : String :=
  let dir := String.intercalate "/" (path.splitOn "/").dropLast
  if dir = "" then "/" else dir

/-- batchByFile (batchingEngine.ts lines 87-121): group by containing
directory, sort each group by severity rank, chunk, derive each chunk's
severity as its highest present severity, and stable-sort descending by
priority. -/
def BatchingEngine.batchByFile (e : BatchingEngine)
    (alerts : List CodeQLAlert) : List AlertBatch :=
  sortByPriorityDesc <|
    (groupByKeyFn (fun a => directoryKey a.most_recent_instance.location.path) alerts).flatMap
      fun g =>
        let sortedAlerts := sortBySeverity g.2
        let chunks := chunkArray sortedAlerts e.maxBatchSize
        chunks.enum.map fun ic =>
          { id := ""
            alerts := ic.2
            strategy := e.strategy
            groupKey := g.1 ++ partSuffix chunks.length ic.1
            severity := getHighestSeverity ic.2
            priority := calculatePriority (getHighestSeverity ic.2) ic.2.length none
            status := .pending }

/-- batchByCWE (batchingEngine.ts lines 123-146): group all alerts by CWE
across severities, sort each group by severity rank, chunk, and stable-sort
descending by priority. -/
def BatchingEngine.batchByCWE (e : BatchingEngine)
    (alerts : List CodeQLAlert) : List AlertBatch :=
  sortByPriorityDesc <|
    (groupByCWE alerts).flatMap fun g =>
      let sortedAlerts := sortBySeverity g.2
      let chunks := chunkArray sortedAlerts e.maxBatchSize
      chunks.enum.map fun ic =>
        { id := ""
          alerts := ic.2
          strategy := e.strategy
          groupKey := g.1 ++ partSuffix chunks.length ic.1
          severity := getHighestSeverity ic.2
          priority := calculatePriority (getHighestSeverity ic.2) ic.2.length none
          status := .pending }

/-- Character prefix test used by the substring model of JS String.includes. -/
def charsStartWith : List Char → List Char → Bool
  | _, [] => true
  | [], _ :: _ => false
  | a :: s, b :: t => a = b && charsStartWith s t

/-- Contiguous-sublist test on character lists (pattern first). -/
def charsContainSub (sub : List Char) : List Char → Bool
  | [] => charsStartWith [] sub
  | a :: t => charsStartWith (a :: t) sub || charsContainSub sub t

/-- JS String.includes: true when pat occurs as a contiguous substring of s
(always true for the empty pattern). -/
def strIncludes (s pat : String) : Bool :=
  charsContainSub pat.data s.data

/-- The simple CWE patterns of estimateComplexity (batchingEngine.ts lines
259-264). -/
def simplePatterns : List String :=
  ["CWE-79", "CWE-89", "CWE-22", "CWE-78"]

/-- The complex CWE patterns of estimateComplexity (batchingEngine.ts lines
266-271). -/
def complexPatterns : List String :=
  ["CWE-362", "CWE-416", "CWE-119", "CWE-190"]

/-- estimateComplexity (batchingEngine.ts lines 258-289): pattern tables on
the first CWE string (alert.cwe?.[0] || ''), then line-span heuristics. -/
def estimateComplexity (a : CodeQLAlert) : Complexity :=
  let cwe := match a.cwe with
    | some (c :: _) => c
    | _ => ""
  if simplePatterns.any (fun p => strIncludes cwe p) then .simple
  else if complexPatterns.any (fun p => strIncludes cwe p) then .complex
  else
    let lineSpan := a.most_recent_instance.location.end_line -
      a.most_recent_instance.location.start_line
    if lineSpan ≤ 5 then .simple
    else if lineSpan ≤ 20 then .moderate
    else .complex

/-- The complexity bucket iteration order (batchingEngine.ts line 161). -/
def complexityOrderList : List Complexity := [.simple, .moderate, .complex]

/-- batchByComplexity (batchingEngine.ts lines 148-186): distribute alerts
into the three buckets (the source pushes each alert to its bucket in input
order, which a filter reproduces), process buckets in order simple,
moderate, complex, sort each bucket by severity rank, chunk, and stable-sort
descending by priority with the bucket's bonus. -/
def BatchingEngine.batchByComplexity (e : BatchingEngine)
    (alerts : List CodeQLAlert) : List AlertBatch :=
  sortByPriorityDesc <|
    complexityOrderList.flatMap fun complexity =>
      let complexityAlerts := alerts.filter (fun a => estimateComplexity a = complexity)
      let sortedAlerts := sortBySeverity complexityAlerts
      let chunks := chunkArray sortedAlerts e.maxBatchSize
      chunks.enum.map fun ic =>
        { id := ""
          alerts := ic.2
          strategy := e.strategy
          groupKey := complexityName complexity ++ partSuffix chunks.length ic.1
          severity := getHighestSeverity ic.2
          priority := calculatePriority (getHighestSeverity ic.2) ic.2.length (some complexity)
          status := .pending }

/-- createBatches (batchingEngine.ts lines 12-27).  The source's default
switch case also dispatches to severity-then-cwe; the strategy union type is
closed, so the five cases are exhaustive here. -/
def BatchingEngine.createBatches (e : BatchingEngine)
    (alerts : List CodeQLAlert) : List AlertBatch :=
  match e.strategy with
  | .severityThenCwe => e.batchBySeverityThenCWE alerts
  | .severityOnly => e.batchBySeverityOnly alerts
  | .byFile => e.batchByFile alerts
  | .byCwe => e.batchByCWE alerts
  | .byComplexity => e.batchByComplexity alerts

/-! Orchestrator model (devinOrchestrator.ts).

The processBatches polling loop is modelled as a labelled transition system.
Each label carries the environment's contribution to one loop action: the
snapshot a successful poll returned, the fact that session creation was rate
limited, the expiry of a wall-clock timeout, or the sequence of CI statuses
the gate observes.  Sleeps, the pause signal, the global run ceiling and the
inter-start delay only affect timing, not the state components the claims
are about, and are not modelled; wall-clock comparisons (per-batch timeout,
gate timeout) are resolved by the environment (a timeout event may occur for
any active batch; the gate's observation list is finite).  Callbacks are
modelled as event logs (completions); external I/O (updatePRDescription,
sendMessage) has no effect on orchestrator state and is omitted. -/

/-- Session status union, from types.ts. -/
inductive SessionStatus
  | pending
  | working
  | blocked
  | finished
  | expired
  | suspended
  | resumed
  deriving DecidableEq, Repr

/-- Structured output of a session; only progress and prUrl are read by the
completion logic (confidenceScore is a floating-point presentation field
never read by the verified claims and is omitted). -/
structure DevinStructuredOutput where
  progress : Int
  prUrl : Option String := none
  deriving DecidableEq, Repr

/-- A Devin session snapshot, from types.ts.  url, batchId, timestamps and
the message log are presentation-only for the verified claims and are
omitted. -/
structure DevinSession where
  sessionId : String
  status : SessionStatus
  prUrl : Option String := none
  structuredOutput : Option DevinStructuredOutput := none
  deriving DecidableEq, Repr

/-- MAX_POLL_RETRIES (devinOrchestrator.ts line 18). -/
def MAX_POLL_RETRIES : Nat := 5

/-- MAX_CONCURRENT_SESSIONS (devinOrchestrator.ts line 25): Devin's
concurrent session limit. -/
def MAX_CONCURRENT_SESSIONS : Nat := 5

/-- MAX_CI_ATTEMPTS (devinOrchestrator.ts line 29): remediation attempts the
gate allows Devin for CI failures. -/
def MAX_CI_ATTEMPTS : Nat := 2

/-- ASCII lowercasing of one character, modelling JS toLowerCase on the
ASCII status strings the Devin API returns. -/
def charLowerAscii (c : Char) : Char :=
  if 'A' ≤ c ∧ c ≤ 'Z' then Char.ofNat (c.toNat + 32) else c

/-- ASCII lowercasing of a string (JS String.prototype.toLowerCase for the
ASCII status vocabulary). -/
def strToLower (s : String) : String :=
  String.mk (s.data.map charLowerAscii)

/-- mapStatus (devinOrchestrator.ts lines 862-884): map a raw remote status
string to the SessionStatus union; every unrecognized string falls to the
default case and becomes pending. -/
def mapStatus (status : String) : SessionStatus :=
  let s := strToLower status
  if s = "working" then .working
  else if s = "blocked" then .blocked
  else if s = "finished" then .finished
  else if s = "expired" then .expired
  else if s = "suspend_requested" ∨ s = "suspend_requested_frontend" ∨ s = "suspended" then
    .suspended
  else if s = "resume_requested" ∨ s = "resume_requested_frontend" ∨ s = "resumed" then
    .resumed
  else .pending

/-- The raw status strings mapStatus recognizes (every case label of its
switch other than the default). -/
def recognizedStatusStrings : List String :=
  ["working", "blocked", "finished", "expired",
   "suspend_requested", "suspend_requested_frontend", "suspended",
   "resume_requested", "resume_requested_frontend", "resumed"]

/-- isSessionComplete (devinOrchestrator.ts lines 886-889): a session is
complete when finished, expired or suspended. -/
def isSessionComplete (status : SessionStatus) : Bool :=
  status = SessionStatus.finished ∨ status = SessionStatus.expired ∨
    status = SessionStatus.suspended

/-- JS truthiness of an optional string: undefined and the empty string are
falsy. -/
def optTruthy : Option String → Bool
  | none => false
  | some str => str ≠ ""

/-- The PR URL the completion logic uses (devinOrchestrator.ts lines 196-197
and 205): updatedSession.prUrl || updatedSession.structuredOutput?.prUrl. -/
def effectivePrUrl (sess : DevinSession) : Option String :=
  if optTruthy sess.prUrl then sess.prUrl
  else
    match sess.structuredOutput with
    | some so => so.prUrl
    | none => none

/-- The secondary completion signal (devinOrchestrator.ts lines 196-197):
structured progress of 100 together with a truthy PR URL. -/
def isProgressComplete (sess : DevinSession) : Bool :=
  (match sess.structuredOutput with
   | some so => decide (so.progress = 100)
   | none => false)
  && optTruthy (effectivePrUrl sess)

/-- The fallback terminal batch status (devinOrchestrator.ts lines 221 and
225, two identical expressions): completed when progress-complete, else
completed exactly when the raw status is finished, else failed. -/
def terminalBatchStatus (sess : DevinSession) : BatchStatus :=
  if isProgressComplete sess then .completed
  else if sess.status = SessionStatus.finished then .completed
  else .failed

/-- A CI check observation, the result of one getPRCheckStatus call
(devinOrchestrator.ts lines 567-646). -/
inductive CIStatus
  | success
  | failure
  | pending
  deriving DecidableEq, Repr

/-- The loop body of waitForCIChecks (devinOrchestrator.ts lines 656-689),
recursing over the finite sequence of CI observations delivered before the
CI_TIMEOUT_MS budget runs out; exhausting the sequence is the timeout.  On
success return true; on failure count an attempt (and message the session,
an external effect); on pending keep polling; once ciAttempts reaches the
ceiling the loop exits and returns false. -/
def waitForCIChecksAux (maxAttempts ciAttempts : Nat) : List CIStatus → Bool
  | [] => false
  | st :: rest =>
    if ciAttempts < maxAttempts then
      match st with
      | .success => true
      | .failure => waitForCIChecksAux maxAttempts (ciAttempts + 1) rest
      | .pending => waitForCIChecksAux maxAttempts ciAttempts rest
    else false

/-- waitForCIChecks (devinOrchestrator.ts lines 656-689) as a function of
the observed CI status sequence, with the source's MAX_CI_ATTEMPTS
ceiling. -/
def waitForCIChecks (obs : List CIStatus) : Bool :=
  waitForCIChecksAux MAX_CI_ATTEMPTS 0 obs

/-- JS Map.prototype.set on an insertion-ordered association list: update in
place when the key exists, append otherwise. -/
def mapSet (m : List (String × β)) (k : String) (v : β) : List (String × β) :=
  if m.any (fun kv => kv.1 = k) then
    m.map (fun kv => if kv.1 = k then (k, v) else kv)
  else m ++ [(k, v)]

/-- JS Map.prototype.delete. -/
def mapDelete (m : List (String × β)) (k : String) : List (String × β) :=
  m.filter (fun kv => kv.1 ≠ k)

/-- JS Map.prototype.get. -/
def mapGet (m : List (String × β)) (k : String) : Option β :=
  (m.find? (fun kv => kv.1 = k)).map Prod.snd

/-- The source's batches.find(b => b.id === batchId) mutation pattern:
rewrite the batch with the given id. -/
def updateBatch (batches : List AlertBatch) (bid : String)
    (f : AlertBatch → AlertBatch) : List AlertBatch :=
  batches.map (fun b => if b.id = bid then f b else b)

/-- The orchestrator's mutable state during one processBatches run: the
batch objects, the pendingBatches queue (as ids, front first), the
activeSessions map, the adaptive ceiling, the rate-limit hit counter, the
per-batch poll retry counters, the completedSessions result map, and event
logs of the onComplete callbacks and the cleanupSession terminations (the
poll interval and start-time maps only influence timing and are modelled by
the environment choosing when events fire). -/
structure OrchestratorState where
  batches : List AlertBatch
  pendingIds : List String
  active : List (String × DevinSession)
  maxParallelSessions : Nat
  rateLimitHits : Nat
  pollRetries : List (String × Nat)
  completedSessions : List (String × DevinSession)
  completions : List String
  terminations : List String
  deriving DecidableEq, Repr

/-- One environment-labelled action of the processBatches loop. -/
inductive OEvent
  | startSuccess (sess : DevinSession)
  | startRateLimited
  | startFail
  | timeoutBatch (bid : String)
  | pollProgress (bid : String) (upd : DevinSession)
  | pollTerminal (bid : String) (upd : DevinSession) (ciObs : List CIStatus)
  | pollFailure (bid : String)
  deriving Repr

/-- One step of processBatches (devinOrchestrator.ts lines 93-282).  Each
event maps the source's corresponding branch: admission of the head pending
batch (success lines 140-153, rate-limit/session-limit re-queue lines
126-139, silent drop lines 154-156), the per-batch timeout (lines 168-184),
a successful non-terminal poll (lines 188-192), a successful terminal poll
with its gate run (lines 194-245), and a failed poll with its retry ceiling
(lines 247-273).  none means the event's guards do not hold in this
state. -/
def stepFn (s : OrchestratorState) : OEvent → Option OrchestratorState
  | .startSuccess sess =>
    match s.pendingIds with
    | [] => none
    | bid :: rest =>
      if s.active.length < s.maxParallelSessions then
        some { s with
          pendingIds := rest
          active := mapSet s.active bid sess
          pollRetries := mapSet s.pollRetries bid 0
          batches := updateBatch s.batches bid (fun b =>
            { b with status := .in_progress, sessionId := some sess.sessionId }) }
      else none
  | .startRateLimited =>
    match s.pendingIds with
    | [] => none
    | bid :: rest =>
      if s.active.length < s.maxParallelSessions then
        some { s with
          pendingIds := bid :: rest
          rateLimitHits := s.rateLimitHits + 1
          maxParallelSessions :=
            if 3 ≤ s.rateLimitHits + 1 ∧ 1 < s.maxParallelSessions then
              s.maxParallelSessions - 1
            else s.maxParallelSessions }
      else none
  | .startFail =>
    match s.pendingIds with
    | [] => none
    | _bid :: rest =>
      if s.active.length < s.maxParallelSessions then
        some { s with pendingIds := rest }
      else none
  | .timeoutBatch bid =>
    match mapGet s.active bid with
    | none => none
    | some _sess =>
      some { s with
        batches := updateBatch s.batches bid (fun b => { b with status := .failed })
        active := mapDelete s.active bid
        pollRetries := mapDelete s.pollRetries bid
        terminations := s.terminations ++ [bid]
        completions := s.completions ++ [bid] }
  | .pollProgress bid upd =>
    match mapGet s.active bid with
    | none => none
    | some _sess =>
      if isSessionComplete upd.status || isProgressComplete upd then none
      else
        some { s with
          active := mapSet s.active bid upd
          pollRetries := mapSet s.pollRetries bid 0 }
  | .pollTerminal bid upd ciObs =>
    match mapGet s.active bid with
    | none => none
    | some _sess =>
      if isSessionComplete upd.status || isProgressComplete upd then
        some { s with
          batches := updateBatch s.batches bid (fun b =>
            { b with
                status :=
                  if optTruthy (effectivePrUrl upd) then
                    if waitForCIChecks ciObs then .completed
                    else terminalBatchStatus upd
                  else terminalBatchStatus upd
                prUrl :=
                  if optTruthy (effectivePrUrl upd) then effectivePrUrl upd
                  else b.prUrl })
          completedSessions := mapSet s.completedSessions bid upd
          active := mapDelete s.active bid
          pollRetries := mapDelete s.pollRetries bid
          terminations := s.terminations ++ [bid]
          completions := s.completions ++ [bid] }
      else none
  | .pollFailure bid =>
    match mapGet s.active bid with
    | none => none
    | some _sess =>
      let retries := (match mapGet s.pollRetries bid with
        | some r => r
        | none => 0) + 1
      if MAX_POLL_RETRIES ≤ retries then
        some { s with
          batches := updateBatch s.batches bid (fun b => { b with status := .failed })
          active := mapDelete s.active bid
          pollRetries := mapDelete s.pollRetries bid
          terminations := s.terminations ++ [bid]
          completions := s.completions ++ [bid] }
      else
        some { s with pollRetries := mapSet s.pollRetries bid retries }

/-- One labelled step. -/
def OStep (s : OrchestratorState) (e : OEvent) (s' : OrchestratorState) : Prop :=
  stepFn s e = some s'

instance (s : OrchestratorState) (e : OEvent) (s' : OrchestratorState) :
    Decidable (OStep s e s') :=
  inferInstanceAs (Decidable (stepFn s e = some s'))

/-- The state processBatches starts from, for a configured ceiling and a
batch list: the constructor clamp maxParallelSessions =
min(configured, MAX_CONCURRENT_SESSIONS - 1) (devinOrchestrator.ts line 74)
and the loop preamble pendingBatches = batches.filter(status === 'pending')
(line 87). -/
def initState (configuredMaxParallel : Nat) (batches : List AlertBatch) :
    OrchestratorState :=
  { batches := batches
    pendingIds := (batches.filter (fun b => b.status = BatchStatus.pending)).map (·.id)
    active := []
    maxParallelSessions := min configuredMaxParallel (MAX_CONCURRENT_SESSIONS - 1)
    rateLimitHits := 0
    pollRetries := []
    completedSessions := []
    completions := []
    terminations := [] }

/-- Reachability by zero or more labelled steps. -/
inductive Reachable : OrchestratorState → OrchestratorState → Prop
  | refl (s : OrchestratorState) : Reachable s s
  | tail {s t u : OrchestratorState} (h : Reachable s t) (e : OEvent)
      (hs : OStep t e u) : Reachable s u

/-! Supporting lemmas about the partitioner's building blocks. -/

theorem chunkArrayFuel_flatten {α : Type} (n : Nat) (hn : n ≠ 0) :
    ∀ (fuel : Nat) (l : List α), l.length ≤ fuel →
      (chunkArrayFuel n fuel l).flatten = l := by
  intro fuel
  induction fuel with
  | zero =>
    intro l hlen
    have : l = [] := List.length_eq_zero.mp (Nat.le_zero.mp hlen)
    subst this
    rfl
  | succ N ih =>
    intro l hlen
    cases l with
    | nil => rfl
    | cons a t =>
      simp only [chunkArrayFuel, List.flatten_cons]
      rw [ih ((a :: t).drop n) ?_]
      · exact List.take_append_drop n (a :: t)
      · simp only [List.length_cons] at hlen
        have hpos := Nat.pos_of_ne_zero hn
        simp only [List.length_drop, List.length_cons]
        omega

theorem chunkArray_flatten {α : Type} (n : Nat) (hn : n ≠ 0) (l : List α) :
    (chunkArray l n).flatten = l := by
  rw [chunkArray, if_neg hn]
  exact chunkArrayFuel_flatten n hn l.length l (Nat.le_refl _)

theorem mem_chunkArrayFuel {α : Type} {n : Nat} (hn : n ≠ 0) :
    ∀ {fuel : Nat} {l c : List α}, c ∈ chunkArrayFuel n fuel l →
      c ≠ [] ∧ c.length ≤ n ∧ ∀ a ∈ c, a ∈ l := by
  intro fuel
  induction fuel with
  | zero =>
    intro l c hc
    cases l <;> exact absurd hc (List.not_mem_nil c)
  | succ N ih =>
    intro l c hc
    cases l with
    | nil => exact absurd hc (List.not_mem_nil c)
    | cons a t =>
      rcases List.mem_cons.mp hc with h | h
      · subst h
        refine ⟨?_, ?_, ?_⟩
        · intro hnil
          have h0 := congrArg List.length hnil
          simp at h0
          exact hn h0
        · simpa using Nat.min_le_left n _
        · intro x hx
          exact List.mem_of_mem_take hx
      · obtain ⟨h1, h2, h3⟩ := ih h
        exact ⟨h1, h2, fun x hx => List.mem_of_mem_drop (h3 x hx)⟩

theorem mem_chunkArray {α : Type} {n : Nat} (hn : n ≠ 0) {l c : List α}
    (hc : c ∈ chunkArray l n) : c ≠ [] ∧ c.length ≤ n ∧ ∀ a ∈ c, a ∈ l := by
  rw [chunkArray, if_neg hn] at hc
  exact mem_chunkArrayFuel hn hc

/-- All members of all groups, in group order. -/
def groupValues {α : Type} (g : List (String × List α)) : List α :=
  g.flatMap Prod.snd

theorem groupValues_insertGrouped {α : Type} (k : String) (a : α)
    (g : List (String × List α)) :
    (groupValues (insertGrouped k a g)).Perm (groupValues g ++ [a]) := by
  induction g with
  | nil => simp [insertGrouped, groupValues]
  | cons hd tl ih =>
    obtain ⟨k', l'⟩ := hd
    by_cases hk : k' = k
    · simp only [insertGrouped, if_pos hk, groupValues, List.flatMap_cons]
      have h1 : (l' ++ [a]) ++ tl.flatMap Prod.snd =
          l' ++ ([a] ++ tl.flatMap Prod.snd) := List.append_assoc l' [a] _
      have h2 : (l' ++ ([a] ++ tl.flatMap Prod.snd)).Perm
          (l' ++ (tl.flatMap Prod.snd ++ [a])) :=
        List.Perm.append_left l' List.perm_append_comm
      have h3 : l' ++ (tl.flatMap Prod.snd ++ [a]) =
          (l' ++ tl.flatMap Prod.snd) ++ [a] := (List.append_assoc l' _ [a]).symm
      rw [h1, ← h3]
      exact h2
    · simp only [insertGrouped, if_neg hk, groupValues, List.flatMap_cons]
      show (l' ++ groupValues (insertGrouped k a tl)).Perm
          ((l' ++ groupValues tl) ++ [a])
      rw [List.append_assoc]
      exact List.Perm.append_left l' ih

theorem groupValues_foldl {α : Type} (key : α → String) (l : List α)
    (acc : List (String × List α)) :
    (groupValues (l.foldl (fun acc a => insertGrouped (key a) a acc) acc)).Perm
      (groupValues acc ++ l) := by
  induction l generalizing acc with
  | nil => simp
  | cons a t ih =>
    simp only [List.foldl_cons]
    refine (ih (insertGrouped (key a) a acc)).trans ?_
    refine (List.Perm.append_right t (groupValues_insertGrouped (key a) a acc)).trans ?_
    rw [List.append_assoc]
    exact List.Perm.refl _

theorem groupByKeyFn_perm {α : Type} (key : α → String) (l : List α) :
    (groupValues (groupByKeyFn key l)).Perm l := by
  simpa [groupValues] using groupValues_foldl key l []

theorem mem_groupByKeyFn {α : Type} {key : α → String} {l : List α}
    {g : String × List α} (hg : g ∈ groupByKeyFn key l) {a : α} (ha : a ∈ g.2) :
    a ∈ l := by
  have hmem : a ∈ groupValues (groupByKeyFn key l) :=
    List.mem_flatMap.mpr ⟨g, hg, ha⟩
  exact (groupByKeyFn_perm key l).mem_iff.mp hmem

theorem flatMapFilter_perm {α κ : Type} [DecidableEq κ] (key : α → κ)
    (keys : List κ) (l : List α) (hmem : ∀ a ∈ l, key a ∈ keys)
    (hnd : keys.Nodup) :
    (keys.flatMap fun k => l.filter (fun a => key a = k)).Perm l := by
  induction keys generalizing l with
  | nil =>
    match l with
    | [] => exact List.Perm.refl _
    | a :: t => exact absurd (hmem a (List.mem_cons_self a t)) (List.not_mem_nil _)
  | cons k ks ih =>
    simp only [List.flatMap_cons]
    have hstep : ∀ k' ∈ ks,
        l.filter (fun a => key a = k') =
          (l.filter (fun a => key a ≠ k)).filter (fun a => key a = k') := by
      intro k' hk'
      rw [List.filter_filter]
      refine (List.filter_congr ?_).symm
      intro a _
      by_cases h : key a = k'
      · have hne : ¬ k' = k := by
          intro hkk
          exact (List.nodup_cons.mp hnd).1 (hkk ▸ hk')
        have hak : key a ≠ k := fun hkk => hne (by rw [← h, hkk])
        simp [h, hak, hne]
      · simp [h]
    have hrest : (ks.flatMap fun k' => l.filter (fun a => key a = k')).Perm
        (l.filter (fun a => key a ≠ k)) := by
      rw [List.flatMap_congr hstep]
      refine ih (l.filter (fun a => key a ≠ k)) ?_ (List.nodup_cons.mp hnd).2
      intro a ha
      have h1 := List.of_mem_filter ha
      have h2 := hmem a (List.mem_of_mem_filter ha)
      simp only [decide_eq_true_eq] at h1
      exact (List.mem_cons.mp h2).resolve_left h1
    refine List.Perm.trans ?_ (List.filter_append_perm (fun a => key a = k) l)
    refine List.Perm.append_left _ ?_
    refine hrest.trans ?_
    refine List.Perm.of_eq (List.filter_congr ?_)
    intro a _
    simp

theorem flatMap_alerts_enum_map_eq
    (mk : Nat × List CodeQLAlert → AlertBatch)
    (hmk : ∀ ic, (mk ic).alerts = ic.2)
    (chunks : List (List CodeQLAlert)) :
    (chunks.enum.map mk).flatMap AlertBatch.alerts = chunks.flatten := by
  rw [List.flatMap_map]
  have : (chunks.enum.flatMap fun ic => (mk ic).alerts) =
      chunks.enum.flatMap Prod.snd :=
    List.flatMap_congr (fun ic _ => hmk ic)
  rw [this, List.flatMap_def, List.enum_map_snd]

theorem mem_enum_map {β : Type} {mk : Nat × List CodeQLAlert → β}
    {chunks : List (List CodeQLAlert)} {b : β}
    (hb : b ∈ chunks.enum.map mk) :
    ∃ i c, c ∈ chunks ∧ b = mk (i, c) := by
  obtain ⟨⟨i, c⟩, hic, hic2⟩ := List.mem_map.mp hb
  obtain ⟨hlt, hget⟩ := List.mem_enum hic
  exact ⟨i, c, hget ▸ List.getElem_mem hlt, hic2.symm⟩

theorem severity_mem_orderList (s : Severity) : s ∈ severityOrderList := by
  cases s <;> simp [severityOrderList]

theorem severityOrderList_nodup : severityOrderList.Nodup := by decide

theorem complexity_mem_orderList (c : Complexity) : c ∈ complexityOrderList := by
  cases c <;> simp [complexityOrderList]

theorem complexityOrderList_nodup : complexityOrderList.Nodup := by decide

theorem flatten_batchBySeverityOnly (e : BatchingEngine) (hN : e.maxBatchSize ≠ 0)
    (alerts : List CodeQLAlert) :
    ((e.batchBySeverityOnly alerts).flatMap AlertBatch.alerts).Perm alerts := by
  simp only [BatchingEngine.batchBySeverityOnly, sortByPriorityDesc]
  refine (List.Perm.flatMap_right AlertBatch.alerts
    (List.perm_insertionSort priorityGe _)).trans ?_
  rw [List.flatMap_assoc]
  have hinner : ∀ sev ∈ severityOrderList,
      (((chunkArray (alerts.filter fun a => a.rule.severity = sev) e.maxBatchSize).enum.map
        fun ic =>
          ({ id := ""
             alerts := ic.2
             strategy := e.strategy
             groupKey := severityName sev ++
               partSuffix (chunkArray (alerts.filter fun a => a.rule.severity = sev)
                 e.maxBatchSize).length ic.1
             severity := sev
             priority := calculatePriority sev ic.2.length none
             status := .pending } : AlertBatch)).flatMap AlertBatch.alerts)
      = alerts.filter fun a => a.rule.severity = sev := by
    intro sev _
    rw [flatMap_alerts_enum_map_eq _ (fun ic => rfl), chunkArray_flatten _ hN]
  rw [List.flatMap_congr hinner]
  exact flatMapFilter_perm (fun a => a.rule.severity) severityOrderList alerts
    (fun a _ => severity_mem_orderList _) severityOrderList_nodup

theorem groupByCWE_perm (alerts : List CodeQLAlert) :
    (groupValues (groupByCWE alerts)).Perm alerts :=
  groupByKeyFn_perm cweKey alerts

theorem sortBySeverity_perm (alerts : List CodeQLAlert) :
    (sortBySeverity alerts).Perm alerts :=
  List.perm_insertionSort sevRankLe alerts

theorem flatten_batchBySeverityThenCWE (e : BatchingEngine)
    (hN : e.maxBatchSize ≠ 0) (alerts : List CodeQLAlert) :
    ((e.batchBySeverityThenCWE alerts).flatMap AlertBatch.alerts).Perm alerts := by
  simp only [BatchingEngine.batchBySeverityThenCWE, sortByPriorityDesc]
  refine (List.Perm.flatMap_right AlertBatch.alerts
    (List.perm_insertionSort priorityGe _)).trans ?_
  rw [List.flatMap_assoc]
  have hinner : ∀ sev ∈ severityOrderList,
      (((groupByCWE (alerts.filter fun a => a.rule.severity = sev)).flatMap fun g =>
        (chunkArray g.2 e.maxBatchSize).enum.map fun ic =>
          ({ id := ""
             alerts := ic.2
             strategy := e.strategy
             groupKey := severityName sev ++ "-" ++ g.1 ++
               partSuffix (chunkArray g.2 e.maxBatchSize).length ic.1
             severity := sev
             priority := calculatePriority sev ic.2.length none
             status := .pending } : AlertBatch)).flatMap AlertBatch.alerts)
      = groupValues (groupByCWE (alerts.filter fun a => a.rule.severity = sev)) := by
    intro sev _
    rw [List.flatMap_assoc]
    exact List.flatMap_congr fun g _ => by
      rw [flatMap_alerts_enum_map_eq _ (fun ic => rfl), chunkArray_flatten _ hN]
  rw [List.flatMap_congr hinner]
  refine (List.Perm.flatMap_left severityOrderList fun sev _ =>
    groupByCWE_perm (alerts.filter fun a => a.rule.severity = sev)).trans ?_
  exact flatMapFilter_perm (fun a => a.rule.severity) severityOrderList alerts
    (fun a _ => severity_mem_orderList _) severityOrderList_nodup

theorem flatten_batchByFile (e : BatchingEngine) (hN : e.maxBatchSize ≠ 0)
    (alerts : List CodeQLAlert) :
    ((e.batchByFile alerts).flatMap AlertBatch.alerts).Perm alerts := by
  simp only [BatchingEngine.batchByFile, sortByPriorityDesc]
  refine (List.Perm.flatMap_right AlertBatch.alerts
    (List.perm_insertionSort priorityGe _)).trans ?_
  rw [List.flatMap_assoc]
  have hinner : ∀ g ∈ groupByKeyFn
        (fun a => directoryKey a.most_recent_instance.location.path) alerts,
      (((chunkArray (sortBySeverity g.2) e.maxBatchSize).enum.map fun ic =>
        ({ id := ""
           alerts := ic.2
           strategy := e.strategy
           groupKey := g.1 ++
             partSuffix (chunkArray (sortBySeverity g.2) e.maxBatchSize).length ic.1
           severity := getHighestSeverity ic.2
           priority := calculatePriority (getHighestSeverity ic.2) ic.2.length none
           status := .pending } : AlertBatch)).flatMap AlertBatch.alerts)
      = sortBySeverity g.2 := by
    intro g _
    rw [flatMap_alerts_enum_map_eq _ (fun ic => rfl), chunkArray_flatten _ hN]
  rw [List.flatMap_congr hinner]
  refine (List.Perm.flatMap_left _ fun g _ => sortBySeverity_perm g.2).trans ?_
  exact groupByKeyFn_perm (fun a => directoryKey a.most_recent_instance.location.path)
    alerts

theorem flatten_batchByCWE (e : BatchingEngine) (hN : e.maxBatchSize ≠ 0)
    (alerts : List CodeQLAlert) :
    ((e.batchByCWE alerts).flatMap AlertBatch.alerts).Perm alerts := by
  simp only [BatchingEngine.batchByCWE, sortByPriorityDesc]
  refine (List.Perm.flatMap_right AlertBatch.alerts
    (List.perm_insertionSort priorityGe _)).trans ?_
  rw [List.flatMap_assoc]
  have hinner : ∀ g ∈ groupByCWE alerts,
      (((chunkArray (sortBySeverity g.2) e.maxBatchSize).enum.map fun ic =>
        ({ id := ""
           alerts := ic.2
           strategy := e.strategy
           groupKey := g.1 ++
             partSuffix (chunkArray (sortBySeverity g.2) e.maxBatchSize).length ic.1
           severity := getHighestSeverity ic.2
           priority := calculatePriority (getHighestSeverity ic.2) ic.2.length none
           status := .pending } : AlertBatch)).flatMap AlertBatch.alerts)
      = sortBySeverity g.2 := by
    intro g _
    rw [flatMap_alerts_enum_map_eq _ (fun ic => rfl), chunkArray_flatten _ hN]
  rw [List.flatMap_congr hinner]
  refine (List.Perm.flatMap_left _ fun g _ => sortBySeverity_perm g.2).trans ?_
  exact groupByCWE_perm alerts

theorem flatten_batchByComplexity (e : BatchingEngine) (hN : e.maxBatchSize ≠ 0)
    (alerts : List CodeQLAlert) :
    ((e.batchByComplexity alerts).flatMap AlertBatch.alerts).Perm alerts := by
  simp only [BatchingEngine.batchByComplexity, sortByPriorityDesc]
  refine (List.Perm.flatMap_right AlertBatch.alerts
    (List.perm_insertionSort priorityGe _)).trans ?_
  rw [List.flatMap_assoc]
  have hinner : ∀ cx ∈ complexityOrderList,
      (((chunkArray (sortBySeverity (alerts.filter fun a => estimateComplexity a = cx))
          e.maxBatchSize).enum.map fun ic =>
        ({ id := ""
           alerts := ic.2
           strategy := e.strategy
           groupKey := complexityName cx ++
             partSuffix (chunkArray
               (sortBySeverity (alerts.filter fun a => estimateComplexity a = cx))
               e.maxBatchSize).length ic.1
           severity := getHighestSeverity ic.2
           priority := calculatePriority (getHighestSeverity ic.2) ic.2.length (some cx)
           status := .pending } : AlertBatch)).flatMap AlertBatch.alerts)
      = sortBySeverity (alerts.filter fun a => estimateComplexity a = cx) := by
    intro cx _
    rw [flatMap_alerts_enum_map_eq _ (fun ic => rfl), chunkArray_flatten _ hN]
  rw [List.flatMap_congr hinner]
  refine (List.Perm.flatMap_left _ fun cx _ =>
    sortBySeverity_perm (alerts.filter fun a => estimateComplexity a = cx)).trans ?_
  exact flatMapFilter_perm estimateComplexity complexityOrderList alerts
    (fun a _ => complexity_mem_orderList _) complexityOrderList_nodup

theorem mem_batchBySeverityThenCWE {e : BatchingEngine} (hN : e.maxBatchSize ≠ 0)
    {alerts : List CodeQLAlert} {b : AlertBatch}
    (hb : b ∈ e.batchBySeverityThenCWE alerts) :
    1 ≤ b.alerts.length ∧ b.alerts.length ≤ e.maxBatchSize ∧
    b.priority = calculatePriority b.severity b.alerts.length none ∧
    (∃ a ∈ alerts, a.rule.severity = b.severity) ∧
    (∀ a ∈ b.alerts, a.rule.severity = b.severity) := by
  simp only [BatchingEngine.batchBySeverityThenCWE, sortByPriorityDesc,
    List.mem_insertionSort] at hb
  obtain ⟨sev, _, hb⟩ := List.mem_flatMap.mp hb
  obtain ⟨g, hg, hb⟩ := List.mem_flatMap.mp hb
  obtain ⟨i, c, hc, rfl⟩ := mem_enum_map hb
  obtain ⟨hne, hlen, hsub⟩ := mem_chunkArray hN hc
  have hcsev : ∀ a ∈ c, a.rule.severity = sev := by
    intro a ha
    have hin := mem_groupByKeyFn hg (hsub a ha)
    have := List.of_mem_filter hin
    simpa using this
  obtain ⟨a0, ha0⟩ := List.exists_mem_of_ne_nil c hne
  refine ⟨Nat.one_le_iff_ne_zero.mpr (fun h => hne (List.length_eq_zero.mp h)),
    hlen, rfl, ?_, hcsev⟩
  exact ⟨a0, List.mem_of_mem_filter (mem_groupByKeyFn hg (hsub a0 ha0)),
    hcsev a0 ha0⟩

theorem mem_batchBySeverityOnly {e : BatchingEngine} (hN : e.maxBatchSize ≠ 0)
    {alerts : List CodeQLAlert} {b : AlertBatch}
    (hb : b ∈ e.batchBySeverityOnly alerts) :
    1 ≤ b.alerts.length ∧ b.alerts.length ≤ e.maxBatchSize ∧
    b.priority = calculatePriority b.severity b.alerts.length none ∧
    (∃ a ∈ alerts, a.rule.severity = b.severity) := by
  simp only [BatchingEngine.batchBySeverityOnly, sortByPriorityDesc,
    List.mem_insertionSort] at hb
  obtain ⟨sev, _, hb⟩ := List.mem_flatMap.mp hb
  obtain ⟨i, c, hc, rfl⟩ := mem_enum_map hb
  obtain ⟨hne, hlen, hsub⟩ := mem_chunkArray hN hc
  obtain ⟨a0, ha0⟩ := List.exists_mem_of_ne_nil c hne
  refine ⟨Nat.one_le_iff_ne_zero.mpr (fun h => hne (List.length_eq_zero.mp h)),
    hlen, rfl, ?_⟩
  have hin := hsub a0 ha0
  refine ⟨a0, List.mem_of_mem_filter hin, ?_⟩
  have := List.of_mem_filter hin
  simpa using this

theorem mem_batchByFile {e : BatchingEngine} (hN : e.maxBatchSize ≠ 0)
    {alerts : List CodeQLAlert} {b : AlertBatch}
    (hb : b ∈ e.batchByFile alerts) :
    1 ≤ b.alerts.length ∧ b.alerts.length ≤ e.maxBatchSize ∧
    b.priority = calculatePriority b.severity b.alerts.length none := by
  simp only [BatchingEngine.batchByFile, sortByPriorityDesc,
    List.mem_insertionSort] at hb
  obtain ⟨g, _, hb⟩ := List.mem_flatMap.mp hb
  obtain ⟨i, c, hc, rfl⟩ := mem_enum_map hb
  obtain ⟨hne, hlen, _⟩ := mem_chunkArray hN hc
  exact ⟨Nat.one_le_iff_ne_zero.mpr (fun h => hne (List.length_eq_zero.mp h)),
    hlen, rfl⟩

theorem mem_batchByCWE {e : BatchingEngine} (hN : e.maxBatchSize ≠ 0)
    {alerts : List CodeQLAlert} {b : AlertBatch}
    (hb : b ∈ e.batchByCWE alerts) :
    1 ≤ b.alerts.length ∧ b.alerts.length ≤ e.maxBatchSize ∧
    b.priority = calculatePriority b.severity b.alerts.length none := by
  simp only [BatchingEngine.batchByCWE, sortByPriorityDesc,
    List.mem_insertionSort] at hb
  obtain ⟨g, _, hb⟩ := List.mem_flatMap.mp hb
  obtain ⟨i, c, hc, rfl⟩ := mem_enum_map hb
  obtain ⟨hne, hlen, _⟩ := mem_chunkArray hN hc
  exact ⟨Nat.one_le_iff_ne_zero.mpr (fun h => hne (List.length_eq_zero.mp h)),
    hlen, rfl⟩

theorem mem_batchByComplexity {e : BatchingEngine} (hN : e.maxBatchSize ≠ 0)
    {alerts : List CodeQLAlert} {b : AlertBatch}
    (hb : b ∈ e.batchByComplexity alerts) :
    1 ≤ b.alerts.length ∧ b.alerts.length ≤ e.maxBatchSize ∧
    ∃ cx : Complexity,
      (∀ a ∈ b.alerts, estimateComplexity a = cx) ∧
      b.priority = calculatePriority b.severity b.alerts.length (some cx) := by
  simp only [BatchingEngine.batchByComplexity, sortByPriorityDesc,
    List.mem_insertionSort] at hb
  obtain ⟨cx, _, hb⟩ := List.mem_flatMap.mp hb
  obtain ⟨i, c, hc, rfl⟩ := mem_enum_map hb
  obtain ⟨hne, hlen, hsub⟩ := mem_chunkArray hN hc
  refine ⟨Nat.one_le_iff_ne_zero.mpr (fun h => hne (List.length_eq_zero.mp h)),
    hlen, cx, ?_, rfl⟩
  intro a ha
  have h1 : a ∈ sortBySeverity (alerts.filter fun x => estimateComplexity x = cx) :=
    hsub a ha
  simp only [sortBySeverity, List.mem_insertionSort] at h1
  have h2 := List.of_mem_filter h1
  simpa using h2

/-- A concrete alert for examples: number, severity, a one-element CWE list,
and a fixed location. -/
def mkExampleAlert (n : Nat) (sev : Severity) (cwe : String) : CodeQLAlert :=
  { number := n
    rule := { severity := sev }
    most_recent_instance :=
      { location := { path := "src/app.ts", start_line := 10, end_line := 15 } }
    cwe := some [cwe] }

/-- The spec's five-item end-to-end example: two critical of category A, one
high of category B, two medium of category A. -/
def exampleFiveAlerts : List CodeQLAlert :=
  [mkExampleAlert 1 .critical "CWE-A", mkExampleAlert 2 .critical "CWE-A",
   mkExampleAlert 3 .high "CWE-B", mkExampleAlert 4 .medium "CWE-A",
   mkExampleAlert 5 .medium "CWE-A"]

/-- C2: for every input list and every positive maxBatchSize, under every
strategy, every batch emitted by createBatches has between 1 and
maxBatchSize items inclusive, and the concatenation of all emitted batches'
alert lists is a permutation of the input list: no item duplicated, no item
lost. -/
theorem createBatches_partitions_input (e : BatchingEngine)
    (alerts : List CodeQLAlert) (hN : 0 < e.maxBatchSize) :
    (∀ b ∈ e.createBatches alerts,
        1 ≤ b.alerts.length ∧ b.alerts.length ≤ e.maxBatchSize) ∧
    ((e.createBatches alerts).flatMap AlertBatch.alerts).Perm alerts := by
  have hN' : e.maxBatchSize ≠ 0 := Nat.pos_iff_ne_zero.mp hN
  obtain ⟨strat, N⟩ := e
  cases strat with
  | severityThenCwe =>
    refine ⟨fun b hb => ?_, flatten_batchBySeverityThenCWE _ hN' alerts⟩
    obtain ⟨h1, h2, _⟩ := mem_batchBySeverityThenCWE hN' hb
    exact ⟨h1, h2⟩
  | severityOnly =>
    refine ⟨fun b hb => ?_, flatten_batchBySeverityOnly _ hN' alerts⟩
    obtain ⟨h1, h2, _⟩ := mem_batchBySeverityOnly hN' hb
    exact ⟨h1, h2⟩
  | byFile =>
    refine ⟨fun b hb => ?_, flatten_batchByFile _ hN' alerts⟩
    obtain ⟨h1, h2, _⟩ := mem_batchByFile hN' hb
    exact ⟨h1, h2⟩
  | byCwe =>
    refine ⟨fun b hb => ?_, flatten_batchByCWE _ hN' alerts⟩
    obtain ⟨h1, h2, _⟩ := mem_batchByCWE hN' hb
    exact ⟨h1, h2⟩
  | byComplexity =>
    refine ⟨fun b hb => ?_, flatten_batchByComplexity _ hN' alerts⟩
    obtain ⟨h1, h2, _⟩ := mem_batchByComplexity hN' hb
    exact ⟨h1, h2⟩

/-- Witness for C2 at a concrete engine and input. -/
theorem createBatches_partitions_input_witness :
    0 < (BatchingEngine.mk .severityThenCwe 5).maxBatchSize ∧
    ((∀ b ∈ (BatchingEngine.mk .severityThenCwe 5).createBatches exampleFiveAlerts,
        1 ≤ b.alerts.length ∧
        b.alerts.length ≤ (BatchingEngine.mk .severityThenCwe 5).maxBatchSize) ∧
      (((BatchingEngine.mk .severityThenCwe 5).createBatches
          exampleFiveAlerts).flatMap AlertBatch.alerts).Perm exampleFiveAlerts) :=
  ⟨by decide,
    createBatches_partitions_input (BatchingEngine.mk .severityThenCwe 5)
      exampleFiveAlerts (by decide)⟩

/-- C4: every emitted batch's priority is the severity base score plus
min(2 x batch size, 20), plus, under the by-complexity strategy only, the
bonus of the batch's own complexity bucket - the bucket every one of its
alerts is classified into by estimateComplexity (simple +15, moderate +5,
complex -10); in particular the five-item example under severity-then-cwe
with maxBatchSize 5 yields exactly three batches in the order critical,
high, medium with priorities 104, 82, 64 and sizes 2, 1, 2. -/
theorem batch_priority_formula :
    (∀ (e : BatchingEngine) (alerts : List CodeQLAlert) (b : AlertBatch),
        0 < e.maxBatchSize → e.strategy ≠ .byComplexity →
        b ∈ e.createBatches alerts →
        b.priority = severityScore b.severity +
          min (2 * (b.alerts.length : Int)) 20) ∧
    (∀ (e : BatchingEngine) (alerts : List CodeQLAlert) (b : AlertBatch),
        0 < e.maxBatchSize → e.strategy = .byComplexity →
        b ∈ e.createBatches alerts →
        1 ≤ b.alerts.length ∧
        ∃ cx : Complexity,
          (∀ a ∈ b.alerts, estimateComplexity a = cx) ∧
          b.priority = severityScore b.severity +
            min (2 * (b.alerts.length : Int)) 20 + complexityBonus cx) ∧
    ((BatchingEngine.mk .severityThenCwe 5).createBatches exampleFiveAlerts).map
        (fun b => (b.severity, b.priority, b.alerts.length)) =
      [(.critical, 104, 2), (.high, 82, 1), (.medium, 64, 2)] := by
  refine ⟨?_, ?_, by decide⟩
  · intro e alerts b hN hne hb
    have hN' : e.maxBatchSize ≠ 0 := Nat.pos_iff_ne_zero.mp hN
    have hpr : b.priority = calculatePriority b.severity b.alerts.length none := by
      obtain ⟨strat, N⟩ := e
      cases strat with
      | severityThenCwe => exact (mem_batchBySeverityThenCWE hN' hb).2.2.1
      | severityOnly => exact (mem_batchBySeverityOnly hN' hb).2.2.1
      | byFile => exact (mem_batchByFile hN' hb).2.2
      | byCwe => exact (mem_batchByCWE hN' hb).2.2
      | byComplexity => exact absurd rfl hne
    rw [hpr]
    simp only [calculatePriority]
    rw [Int.mul_comm]
    omega
  · intro e alerts b hN heq hb
    have hN' : e.maxBatchSize ≠ 0 := Nat.pos_iff_ne_zero.mp hN
    obtain ⟨strat, N⟩ := e
    cases strat with
    | byComplexity =>
      obtain ⟨hge1, _, cx, hall, hpr⟩ := mem_batchByComplexity hN' hb
      refine ⟨hge1, cx, hall, ?_⟩
      rw [hpr]
      simp only [calculatePriority]
      rw [Int.mul_comm]
    | severityThenCwe => exact BatchingStrategy.noConfusion heq
    | severityOnly => exact BatchingStrategy.noConfusion heq
    | byFile => exact BatchingStrategy.noConfusion heq
    | byCwe => exact BatchingStrategy.noConfusion heq

/-- The critical batch the severity-only strategy emits first on the
five-item example. -/
def exampleSeverityOnlyBatch : AlertBatch :=
  { id := ""
    alerts := [mkExampleAlert 1 .critical "CWE-A", mkExampleAlert 2 .critical "CWE-A"]
    strategy := .severityOnly
    groupKey := "critical"
    severity := .critical
    priority := 104
    status := .pending }

/-- Witness for C4 at a concrete emitted batch of the example run. -/
theorem batch_priority_formula_witness :
    (0 < (BatchingEngine.mk .severityOnly 5).maxBatchSize ∧
      (BatchingEngine.mk .severityOnly 5).strategy ≠ .byComplexity ∧
      exampleSeverityOnlyBatch ∈
        (BatchingEngine.mk .severityOnly 5).createBatches exampleFiveAlerts) ∧
    exampleSeverityOnlyBatch.priority =
      severityScore exampleSeverityOnlyBatch.severity +
        min (2 * (exampleSeverityOnlyBatch.alerts.length : Int)) 20 :=
  ⟨⟨by decide, by decide, by decide⟩,
    batch_priority_formula.1 (BatchingEngine.mk .severityOnly 5) exampleFiveAlerts
      exampleSeverityOnlyBatch (by decide) (by decide) (by decide)⟩

/-- The severity rank used by the ordering claims: the position of the
severity in the engine's fixed iteration order (severityOrderList), lower
rank meaning more severe. -/
def severityRank : Severity → Nat
  | .critical => 0
  | .high => 1
  | .medium => 2
  | .low => 3
  | .warning => 4
  | .note => 5
  | .error => 6

/-- One warning alert followed by seven note alerts: the note group's size
bonus (min(2 x 7, 20) = 14) lifts its priority above the warning batch's
(20 + 2 = 22 versus 10 + 14 = 24), so the priority sort emits the note
batch first. -/
def exampleNoteOverWarning : List CodeQLAlert :=
  [mkExampleAlert 0 .warning "CWE-W",
   mkExampleAlert 1 .note "CWE-N", mkExampleAlert 2 .note "CWE-N",
   mkExampleAlert 3 .note "CWE-N", mkExampleAlert 4 .note "CWE-N",
   mkExampleAlert 5 .note "CWE-N", mkExampleAlert 6 .note "CWE-N",
   mkExampleAlert 7 .note "CWE-N"]

/-- Counterexample for C3: under severity-then-cwe with maxBatchSize 10, the
input with one warning and seven note alerts yields the batch severity
sequence [note, warning], so a batch of the lower-ranked severity note
precedes the warning batch and the output is not ordered by severity
rank. -/
theorem severityThenCWE_not_rank_ordered :
    ((BatchingEngine.mk .severityThenCwe 10).createBatches
        exampleNoteOverWarning).map AlertBatch.severity = [.note, .warning] ∧
    severityRank .warning < severityRank .note ∧
    ¬ List.Pairwise (fun b1 b2 => severityRank b1.severity ≤ severityRank b2.severity)
      ((BatchingEngine.mk .severityThenCwe 10).createBatches exampleNoteOverWarning) := by
  refine ⟨by decide, by decide, by decide⟩

/-- Bounds of the batch-size bonus min(2 x size, 20) for a non-empty
batch. -/
theorem sizeBonus_bounds (len : Nat) (hlen : 1 ≤ len) :
    2 ≤ min (2 * (len : Int)) 20 ∧ min (2 * (len : Int)) 20 ≤ 20 := by
  constructor
  · refine le_min ?_ (by norm_num)
    omega
  · exact min_le_right _ _

/-- Severity base scores of two severities both ranked at warning or above
are separated by at least the maximal size bonus, so a more severe
non-empty batch always outranks a less severe one. -/
theorem severityScore_gap :
    ∀ s1 s2 : Severity, severityRank s1 ≤ 4 → severityRank s2 ≤ 4 →
      severityRank s2 < severityRank s1 →
      severityScore s1 + 20 < severityScore s2 + 2 := by
  decide

/-- C3, amended: under the severity-then-cwe strategy the emitted priorities
are non-increasing for every input, and the batch list is additionally
ordered by severity rank whenever the batch size is positive and the input
contains no note- and no error-severity items (for other inputs the
severity score ranges overlap: a note batch of seven or more items outranks
a one-item warning batch, and error scores as high). -/
theorem severityThenCWE_priority_sorted_rank_ordered (e : BatchingEngine)
    (alerts : List CodeQLAlert) (hstrat : e.strategy = .severityThenCwe) :
    List.Pairwise (fun b1 b2 => b2.priority ≤ b1.priority)
      (e.createBatches alerts) ∧
    (0 < e.maxBatchSize →
      (∀ a ∈ alerts, severityRank a.rule.severity ≤ 4) →
      List.Pairwise
        (fun b1 b2 => severityRank b1.severity ≤ severityRank b2.severity)
        (e.createBatches alerts)) := by
  obtain ⟨strat, N⟩ := e
  cases hstrat
  have hsorted : List.Pairwise priorityGe
      ((BatchingEngine.mk .severityThenCwe N).batchBySeverityThenCWE alerts) :=
    List.sorted_insertionSort priorityGe _
  constructor
  · exact hsorted.imp fun h => h
  · intro hN hsev
    have hN' : (BatchingEngine.mk .severityThenCwe N).maxBatchSize ≠ 0 :=
      Nat.pos_iff_ne_zero.mp hN
    have hmem : ∀ b ∈ (BatchingEngine.mk .severityThenCwe N).batchBySeverityThenCWE
          alerts,
        1 ≤ b.alerts.length ∧
        b.priority = calculatePriority b.severity b.alerts.length none ∧
        severityRank b.severity ≤ 4 := by
      intro b hb
      obtain ⟨h1, _, hpr, ⟨a, ha, hsa⟩, _⟩ := mem_batchBySeverityThenCWE hN' hb
      exact ⟨h1, hpr, hsa ▸ hsev a ha⟩
    refine List.Pairwise.imp_of_mem ?_ hsorted
    intro b1 b2 hb1 hb2 hge
    obtain ⟨hlen1, hpr1, hrk1⟩ := hmem b1 hb1
    obtain ⟨hlen2, hpr2, hrk2⟩ := hmem b2 hb2
    by_contra hlt
    push_neg at hlt
    have hgap := severityScore_gap b1.severity b2.severity hrk1 hrk2 hlt
    obtain ⟨hlo1, hhi1⟩ := sizeBonus_bounds b1.alerts.length hlen1
    obtain ⟨hlo2, hhi2⟩ := sizeBonus_bounds b2.alerts.length hlen2
    have e1 : b1.priority =
        severityScore b1.severity + min (2 * (b1.alerts.length : Int)) 20 := by
      rw [hpr1]
      simp only [calculatePriority]
      rw [Int.mul_comm]
      omega
    have e2 : b2.priority =
        severityScore b2.severity + min (2 * (b2.alerts.length : Int)) 20 := by
      rw [hpr2]
      simp only [calculatePriority]
      rw [Int.mul_comm]
      omega
    have hc : priorityGe b1 b2 := hge
    simp only [priorityGe] at hc
    rw [e1, e2] at hc
    linarith

/-- Witness for the amended C3 at the five-item example (severities
critical, high and medium only). -/
theorem severityThenCWE_priority_sorted_rank_ordered_witness :
    ((BatchingEngine.mk .severityThenCwe 5).strategy = .severityThenCwe ∧
      0 < (BatchingEngine.mk .severityThenCwe 5).maxBatchSize ∧
      (∀ a ∈ exampleFiveAlerts, severityRank a.rule.severity ≤ 4)) ∧
    (List.Pairwise (fun b1 b2 => b2.priority ≤ b1.priority)
        ((BatchingEngine.mk .severityThenCwe 5).createBatches exampleFiveAlerts) ∧
      List.Pairwise
        (fun b1 b2 => severityRank b1.severity ≤ severityRank b2.severity)
        ((BatchingEngine.mk .severityThenCwe 5).createBatches exampleFiveAlerts)) :=
  ⟨⟨rfl, by decide, by decide⟩,
    (severityThenCWE_priority_sorted_rank_ordered
        (BatchingEngine.mk .severityThenCwe 5) exampleFiveAlerts rfl).1,
    (severityThenCWE_priority_sorted_rank_ordered
        (BatchingEngine.mk .severityThenCwe 5) exampleFiveAlerts rfl).2
      (by decide) (by decide)⟩

/-- C7: with the source's remediation ceiling of two attempts, a check that
is observed failing twice and then succeeding makes the gate return false
(the attempts are exhausted before the success is observed), while a check
failing only once before succeeding passes: the boundary is exactly at the
ceiling. -/
theorem waitForCIChecks_attempt_ceiling_boundary :
    waitForCIChecks [CIStatus.failure, CIStatus.failure, CIStatus.success] = false ∧
    waitForCIChecks [CIStatus.failure, CIStatus.success] = true := by
  exact ⟨rfl, rfl⟩

/-! Supporting lemmas about the orchestrator's association-list maps. -/

/-- The ids of the batches currently holding a live session. -/
def activeKeys (s : OrchestratorState) : List String :=
  s.active.map Prod.fst

theorem mapSet_keys_of_any {β : Type} {m : List (String × β)} {k : String}
    (v : β) (h : m.any (fun kv => kv.1 = k) = true) :
    (mapSet m k v).map Prod.fst = m.map Prod.fst := by
  simp only [mapSet, h, if_true]
  rw [List.map_map]
  refine List.map_congr_left ?_
  intro kv _
  by_cases hkv : kv.1 = k <;> simp [hkv]

theorem mapSet_keys_of_not_any {β : Type} {m : List (String × β)} {k : String}
    (v : β) (h : ¬ m.any (fun kv => kv.1 = k) = true) :
    (mapSet m k v).map Prod.fst = m.map Prod.fst ++ [k] := by
  simp only [mapSet, h, if_false]
  simp

theorem mapSet_length_of_any {β : Type} {m : List (String × β)} {k : String}
    (v : β) (h : m.any (fun kv => kv.1 = k) = true) :
    (mapSet m k v).length = m.length := by
  simp [mapSet, h]

theorem mapSet_length_le {β : Type} (m : List (String × β)) (k : String)
    (v : β) : (mapSet m k v).length ≤ m.length + 1 := by
  unfold mapSet
  split
  · simp
  · simp

theorem mapDelete_length_le {β : Type} (m : List (String × β)) (k : String) :
    (mapDelete m k).length ≤ m.length :=
  List.length_filter_le _ m

theorem mem_keys_mapDelete {β : Type} {m : List (String × β)} {k k' : String} :
    k' ∈ (mapDelete m k).map Prod.fst ↔ k' ∈ m.map Prod.fst ∧ k' ≠ k := by
  simp only [mapDelete, List.mem_map, List.mem_filter]
  constructor
  · rintro ⟨kv, ⟨hm, hne⟩, rfl⟩
    simp only [decide_not, Bool.not_eq_eq_eq_not, Bool.not_true,
      decide_eq_false_iff_not] at hne
    exact ⟨⟨kv, hm, rfl⟩, hne⟩
  · rintro ⟨⟨kv, hm, rfl⟩, hne⟩
    refine ⟨kv, ⟨hm, ?_⟩, rfl⟩
    simp [hne]

theorem keys_mapDelete_nodup {β : Type} {m : List (String × β)} {k : String}
    (h : (m.map Prod.fst).Nodup) : ((mapDelete m k).map Prod.fst).Nodup := by
  have hsub : (mapDelete m k).Sublist m := List.filter_sublist m
  exact (hsub.map Prod.fst).nodup h

theorem mapGet_mem_keys {β : Type} {m : List (String × β)} {k : String}
    {v : β} (h : mapGet m k = some v) : k ∈ m.map Prod.fst := by
  simp only [mapGet, Option.map_eq_some'] at h
  obtain ⟨kv, hfind, _⟩ := h
  have hmem := List.mem_of_find?_eq_some hfind
  have hp := List.find?_some hfind
  simp only [decide_eq_true_eq] at hp
  exact hp ▸ List.mem_map_of_mem Prod.fst hmem

theorem mapGet_any {β : Type} {m : List (String × β)} {k : String} {v : β}
    (h : mapGet m k = some v) : m.any (fun kv => kv.1 = k) = true := by
  simp only [mapGet, Option.map_eq_some'] at h
  obtain ⟨kv, hfind, _⟩ := h
  have hmem := List.mem_of_find?_eq_some hfind
  have hp := List.find?_some hfind
  exact List.any_eq_true.mpr ⟨kv, hmem, hp⟩

/-- The loop invariant for the concurrency claims: the active-session count
never exceeds the current ceiling, and the ceiling never exceeds the clamp
of the configured value. -/
def ConcurrencyInv (cap : Nat) (s : OrchestratorState) : Prop :=
  s.active.length ≤ s.maxParallelSessions ∧
  s.maxParallelSessions ≤ min cap (MAX_CONCURRENT_SESSIONS - 1)

theorem step_preserves_concurrencyInv {cap : Nat} {s : OrchestratorState}
    {e : OEvent} {s' : OrchestratorState} (h : ConcurrencyInv cap s)
    (hs : OStep s e s') : ConcurrencyInv cap s' := by
  obtain ⟨h1, h2⟩ := h
  cases e <;> simp only [OStep, stepFn] at hs
  case startSuccess sess =>
    split at hs
    · exact absurd hs (by simp)
    · split at hs
      · obtain rfl := Option.some.inj hs
        refine ⟨?_, h2⟩
        simp only []
        calc (mapSet s.active _ sess).length ≤ s.active.length + 1 :=
              mapSet_length_le _ _ _
          _ ≤ s.maxParallelSessions := by omega
      · exact absurd hs (by simp)
  case startRateLimited =>
    split at hs
    · exact absurd hs (by simp)
    · split at hs
      · obtain rfl := Option.some.inj hs
        constructor
        · simp only []
          split
          · omega
          · exact h1
        · simp only []
          split
          · omega
          · exact h2
      · exact absurd hs (by simp)
  case startFail =>
    split at hs
    · exact absurd hs (by simp)
    · split at hs
      · obtain rfl := Option.some.inj hs
        exact ⟨h1, h2⟩
      · exact absurd hs (by simp)
  case timeoutBatch bid =>
    split at hs
    · exact absurd hs (by simp)
    · obtain rfl := Option.some.inj hs
      refine ⟨?_, h2⟩
      calc (mapDelete s.active bid).length ≤ s.active.length :=
            mapDelete_length_le _ _
        _ ≤ s.maxParallelSessions := h1
  case pollProgress bid upd =>
    split at hs
    · exact absurd hs (by simp)
    next _sess hget =>
      split at hs
      · exact absurd hs (by simp)
      · obtain rfl := Option.some.inj hs
        refine ⟨?_, h2⟩
        rw [show (mapSet s.active bid upd).length = s.active.length from
          mapSet_length_of_any upd (mapGet_any hget)]
        exact h1
  case pollTerminal bid upd ciObs =>
    split at hs
    · exact absurd hs (by simp)
    · split at hs
      · obtain rfl := Option.some.inj hs
        refine ⟨?_, h2⟩
        calc (mapDelete s.active bid).length ≤ s.active.length :=
              mapDelete_length_le _ _
          _ ≤ s.maxParallelSessions := h1
      · exact absurd hs (by simp)
  case pollFailure bid =>
    split at hs
    · exact absurd hs (by simp)
    · split at hs
      · obtain rfl := Option.some.inj hs
        refine ⟨?_, h2⟩
        calc (mapDelete s.active bid).length ≤ s.active.length :=
              mapDelete_length_le _ _
          _ ≤ s.maxParallelSessions := h1
      · obtain rfl := Option.some.inj hs
        exact ⟨h1, h2⟩

theorem reachable_concurrencyInv {cap : Nat} {batches : List AlertBatch}
    {s : OrchestratorState} (h : Reachable (initState cap batches) s) :
    ConcurrencyInv cap s := by
  induction h with
  | refl =>
    exact ⟨Nat.zero_le _, Nat.le_refl _⟩
  | tail _ e hs ih =>
    exact step_preserves_concurrencyInv ih hs

/-- A concrete pending batch for orchestrator examples. -/
def mkExampleBatch (bid : String) (sev : Severity) : AlertBatch :=
  { id := bid
    alerts := [mkExampleAlert 1 sev "CWE-A"]
    strategy := .severityThenCwe
    groupKey := "g"
    severity := sev
    priority := 102
    status := .pending }

/-- Three pending batches with distinct ids. -/
def exampleThreeBatches : List AlertBatch :=
  [mkExampleBatch "b1" .critical, mkExampleBatch "b2" .high,
   mkExampleBatch "b3" .medium]

/-- C5: in every run of processBatches started with a configured ceiling,
the number of simultaneously active remote sessions (the activeSessions map
size) never exceeds that ceiling, in every reachable state. -/
theorem active_sessions_bounded_by_ceiling (cap : Nat)
    (batches : List AlertBatch) (s : OrchestratorState)
    (h : Reachable (initState cap batches) s) :
    s.active.length ≤ cap := by
  obtain ⟨h1, h2⟩ := reachable_concurrencyInv h
  have h3 := Nat.min_le_left cap (MAX_CONCURRENT_SESSIONS - 1)
  omega

/-- Witness for C5: the initial state of a run with ceiling 2 and three
pending batches. -/
theorem active_sessions_bounded_by_ceiling_witness :
    Reachable (initState 2 exampleThreeBatches) (initState 2 exampleThreeBatches) ∧
    (initState 2 exampleThreeBatches).active.length ≤ 2 :=
  ⟨Reachable.refl _,
    active_sessions_bounded_by_ceiling 2 exampleThreeBatches _ (Reachable.refl _)⟩

/-- C9: the constructor clamps the effective ceiling to
min(configured, MAX_CONCURRENT_SESSIONS - 1), so for every configured
ceiling of at least 5 the effective ceiling is 4 and no reachable state of
the run holds more than four active sessions. -/
theorem ceiling_clamped_below_session_limit (cap : Nat)
    (batches : List AlertBatch) (s : OrchestratorState) (hcap : 5 ≤ cap)
    (h : Reachable (initState cap batches) s) :
    (initState cap batches).maxParallelSessions = 4 ∧ s.active.length ≤ 4 := by
  constructor
  · show min cap (MAX_CONCURRENT_SESSIONS - 1) = 4
    have : MAX_CONCURRENT_SESSIONS - 1 = 4 := rfl
    rw [this]
    exact Nat.min_eq_right (by omega)
  · obtain ⟨h1, h2⟩ := reachable_concurrencyInv h
    have h3 := Nat.min_le_right cap (MAX_CONCURRENT_SESSIONS - 1)
    have : MAX_CONCURRENT_SESSIONS - 1 = 4 := rfl
    omega

/-- Witness for C9 at configured ceiling 5. -/
theorem ceiling_clamped_below_session_limit_witness :
    (5 ≤ 5 ∧
      Reachable (initState 5 exampleThreeBatches) (initState 5 exampleThreeBatches)) ∧
    ((initState 5 exampleThreeBatches).maxParallelSessions = 4 ∧
      (initState 5 exampleThreeBatches).active.length ≤ 4) :=
  ⟨⟨by decide, Reachable.refl _⟩,
    ceiling_clamped_below_session_limit 5 exampleThreeBatches _ (by decide)
      (Reachable.refl _)⟩

/-- C8: a RateLimited or ConcurrencyLimitExceeded admission outcome leaves
the pending queue unchanged with the same batch at its front (the batch is
re-enqueued, no batch is marked failed), increments the rate-limit hit
counter, and from the third hit on lowers the ceiling by one while it is
above one; and no step of the loop ever raises the ceiling or drops it
below one. -/
theorem rateLimited_requeues_and_lowers_ceiling :
    (∀ (s s' : OrchestratorState), OStep s .startRateLimited s' →
        s'.pendingIds = s.pendingIds ∧ s.pendingIds ≠ [] ∧
        s'.batches = s.batches ∧
        s'.rateLimitHits = s.rateLimitHits + 1 ∧
        (if 3 ≤ s.rateLimitHits + 1 ∧ 1 < s.maxParallelSessions
          then s'.maxParallelSessions = s.maxParallelSessions - 1
          else s'.maxParallelSessions = s.maxParallelSessions)) ∧
    (∀ (s : OrchestratorState) (e : OEvent) (s' : OrchestratorState),
        OStep s e s' →
        s'.maxParallelSessions ≤ s.maxParallelSessions ∧
        (1 ≤ s.maxParallelSessions → 1 ≤ s'.maxParallelSessions)) := by
  constructor
  · intro s s' hs
    simp only [OStep, stepFn] at hs
    split at hs
    · exact absurd hs (by simp)
    next bid rest heq =>
      split at hs
      · obtain rfl := Option.some.inj hs
        refine ⟨by rw [heq], by rw [heq]; simp, rfl, rfl, ?_⟩
        split <;> simp only []
      · exact absurd hs (by simp)
  · intro s e s' hs
    cases e <;> simp only [OStep, stepFn] at hs
    case startSuccess sess =>
      split at hs
      · exact absurd hs (by simp)
      · split at hs
        · obtain rfl := Option.some.inj hs
          exact ⟨Nat.le_refl _, fun h => h⟩
        · exact absurd hs (by simp)
    case startRateLimited =>
      split at hs
      · exact absurd hs (by simp)
      · split at hs
        · obtain rfl := Option.some.inj hs
          constructor
          · simp only []
            split <;> omega
          · intro h
            simp only []
            split <;> omega
        · exact absurd hs (by simp)
    case startFail =>
      split at hs
      · exact absurd hs (by simp)
      · split at hs
        · obtain rfl := Option.some.inj hs
          exact ⟨Nat.le_refl _, fun h => h⟩
        · exact absurd hs (by simp)
    case timeoutBatch bid =>
      split at hs
      · exact absurd hs (by simp)
      · obtain rfl := Option.some.inj hs
        exact ⟨Nat.le_refl _, fun h => h⟩
    case pollProgress bid upd =>
      split at hs
      · exact absurd hs (by simp)
      · split at hs
        · exact absurd hs (by simp)
        · obtain rfl := Option.some.inj hs
          exact ⟨Nat.le_refl _, fun h => h⟩
    case pollTerminal bid upd ciObs =>
      split at hs
      · exact absurd hs (by simp)
      · split at hs
        · obtain rfl := Option.some.inj hs
          exact ⟨Nat.le_refl _, fun h => h⟩
        · exact absurd hs (by simp)
    case pollFailure bid =>
      split at hs
      · exact absurd hs (by simp)
      · split at hs
        · obtain rfl := Option.some.inj hs
          exact ⟨Nat.le_refl _, fun h => h⟩
        · obtain rfl := Option.some.inj hs
          exact ⟨Nat.le_refl _, fun h => h⟩

/-- The state a rate-limited first admission starts from. -/
def exampleRateLimitedStart : OrchestratorState :=
  initState 1 exampleThreeBatches

/-- The state after that rate-limited admission. -/
def exampleRateLimitedNext : OrchestratorState :=
  (stepFn exampleRateLimitedStart .startRateLimited).getD exampleRateLimitedStart

/-- Witness for C8 at a concrete rate-limited admission. -/
theorem rateLimited_requeues_witness :
    OStep exampleRateLimitedStart .startRateLimited exampleRateLimitedNext ∧
    (exampleRateLimitedNext.pendingIds = exampleRateLimitedStart.pendingIds ∧
      exampleRateLimitedStart.pendingIds ≠ [] ∧
      exampleRateLimitedNext.batches = exampleRateLimitedStart.batches ∧
      exampleRateLimitedNext.rateLimitHits =
        exampleRateLimitedStart.rateLimitHits + 1 ∧
      (if 3 ≤ exampleRateLimitedStart.rateLimitHits + 1 ∧
            1 < exampleRateLimitedStart.maxParallelSessions
        then exampleRateLimitedNext.maxParallelSessions =
          exampleRateLimitedStart.maxParallelSessions - 1
        else exampleRateLimitedNext.maxParallelSessions =
          exampleRateLimitedStart.maxParallelSessions)) :=
  ⟨by decide,
    rateLimited_requeues_and_lowers_ceiling.1 exampleRateLimitedStart
      exampleRateLimitedNext (by decide)⟩

/-! The well-formedness invariant the exactly-once claims rest on: batch ids
are unique across the queues, a batch id leaves the pending queue before it
can hold a session, and an id is only terminated or completed once it has
left both. -/

theorem any_key_iff_mem_keys {β : Type} {m : List (String × β)} {k : String} :
    m.any (fun kv => kv.1 = k) = true ↔ k ∈ m.map Prod.fst := by
  simp [List.any_eq_true, List.mem_map]

/-- States whose queues are well formed: no duplicate ids, pending and
active disjoint, and the termination/completion logs disjoint from both. -/
structure GoodState (s : OrchestratorState) : Prop where
  activeNodup : (activeKeys s).Nodup
  pendingNodup : s.pendingIds.Nodup
  activePending : ∀ k ∈ activeKeys s, k ∉ s.pendingIds
  activeTerm : ∀ k ∈ activeKeys s, k ∉ s.terminations
  pendingTerm : ∀ k ∈ s.pendingIds, k ∉ s.terminations
  activeCompl : ∀ k ∈ activeKeys s, k ∉ s.completions
  pendingCompl : ∀ k ∈ s.pendingIds, k ∉ s.completions

theorem initState_goodState (cap : Nat) (batches : List AlertBatch)
    (hid : (batches.map AlertBatch.id).Nodup) :
    GoodState (initState cap batches) := by
  refine ⟨?_, ?_, ?_, ?_, ?_, ?_, ?_⟩
  · exact List.nodup_nil
  · have hsub : ((batches.filter fun b => b.status = BatchStatus.pending).map
        AlertBatch.id).Sublist (batches.map AlertBatch.id) :=
      (List.filter_sublist batches).map AlertBatch.id
    exact hsub.nodup hid
  · intro k hk
    exact absurd hk (List.not_mem_nil k)
  · intro k hk
    exact absurd hk (List.not_mem_nil k)
  · intro k _ hk
    exact absurd hk (List.not_mem_nil k)
  · intro k hk
    exact absurd hk (List.not_mem_nil k)
  · intro k _ hk
    exact absurd hk (List.not_mem_nil k)

theorem step_preserves_goodState {s : OrchestratorState} {e : OEvent}
    {s' : OrchestratorState} (h : GoodState s) (hs : OStep s e s') :
    GoodState s' := by
  obtain ⟨h1, h2, h3, h4, h5, h6, h7⟩ := h
  cases e <;> simp only [OStep, stepFn] at hs
  case startSuccess sess =>
    split at hs
    · exact absurd hs (by simp)
    next bid rest heq =>
      split at hs
      · obtain rfl := Option.some.inj hs
        have hbidp : bid ∈ s.pendingIds := by rw [heq]; exact List.mem_cons_self _ _
        have hfresh : ¬ s.active.any (fun kv => kv.1 = bid) = true := by
          intro hany
          exact h3 bid (any_key_iff_mem_keys.mp hany) hbidp
        have hkeys : activeKeys
            { s with
              pendingIds := rest
              active := mapSet s.active bid sess
              pollRetries := mapSet s.pollRetries bid 0
              batches := updateBatch s.batches bid fun b =>
                { b with status := .in_progress, sessionId := some sess.sessionId } }
            = activeKeys s ++ [bid] := mapSet_keys_of_not_any sess hfresh
        have hpnodup : (bid :: rest).Nodup := heq ▸ h2
        have hbidrest : bid ∉ rest := (List.nodup_cons.mp hpnodup).1
        refine ⟨?_, ?_, ?_, ?_, ?_, ?_, ?_⟩
        · rw [hkeys]
          simp only [List.nodup_append, List.nodup_cons, List.not_mem_nil,
            not_false_iff, List.nodup_nil, and_true, true_and]
          refine ⟨h1, ?_⟩
          intro a ha
          simp only [List.mem_singleton]
          intro hab
          subst hab
          exact h3 a ha hbidp
        · exact (List.nodup_cons.mp hpnodup).2
        · intro k hk
          rw [hkeys] at hk
          rcases List.mem_append.mp hk with hk | hk
          · intro hkr
            exact h3 k hk (heq ▸ List.mem_cons_of_mem bid hkr)
          · rw [List.mem_singleton.mp hk]
            exact hbidrest
        · intro k hk
          rw [hkeys] at hk
          rcases List.mem_append.mp hk with hk | hk
          · exact h4 k hk
          · rw [List.mem_singleton.mp hk]
            exact h5 bid hbidp
        · intro k hk
          exact h5 k (heq ▸ List.mem_cons_of_mem bid hk)
        · intro k hk
          rw [hkeys] at hk
          rcases List.mem_append.mp hk with hk | hk
          · exact h6 k hk
          · rw [List.mem_singleton.mp hk]
            exact h7 bid hbidp
        · intro k hk
          exact h7 k (heq ▸ List.mem_cons_of_mem bid hk)
      · exact absurd hs (by simp)
  case startRateLimited =>
    split at hs
    · exact absurd hs (by simp)
    next bid rest heq =>
      split at hs
      · obtain rfl := Option.some.inj hs
        refine ⟨h1, heq ▸ h2, ?_, h4, ?_, h6, ?_⟩
        · intro k hk
          rw [← heq]
          exact h3 k hk
        · intro k hk
          rw [← heq] at hk
          exact h5 k hk
        · intro k hk
          rw [← heq] at hk
          exact h7 k hk
      · exact absurd hs (by simp)
  case startFail =>
    split at hs
    · exact absurd hs (by simp)
    next bid rest heq =>
      split at hs
      · obtain rfl := Option.some.inj hs
        have hpnodup : (bid :: rest).Nodup := heq ▸ h2
        refine ⟨h1, (List.nodup_cons.mp hpnodup).2, ?_, h4, ?_, h6, ?_⟩
        · intro k hk hkr
          exact h3 k hk (heq ▸ List.mem_cons_of_mem bid hkr)
        · intro k hk
          exact h5 k (heq ▸ List.mem_cons_of_mem bid hk)
        · intro k hk
          exact h7 k (heq ▸ List.mem_cons_of_mem bid hk)
      · exact absurd hs (by simp)
  case timeoutBatch bid =>
    split at hs
    · exact absurd hs (by simp)
    next sess hget =>
      obtain rfl := Option.some.inj hs
      have hbidk : bid ∈ activeKeys s := mapGet_mem_keys hget
      refine ⟨keys_mapDelete_nodup h1, h2, ?_, ?_, ?_, ?_, ?_⟩
      · intro k hk
        exact h3 k (mem_keys_mapDelete.mp hk).1
      · intro k hk
        obtain ⟨hk, hne⟩ := mem_keys_mapDelete.mp hk
        intro hkt
        rcases List.mem_append.mp hkt with hkt | hkt
        · exact h4 k hk hkt
        · exact hne (List.mem_singleton.mp hkt)
      · intro k hk
        intro hkt
        rcases List.mem_append.mp hkt with hkt | hkt
        · exact h5 k hk hkt
        · exact h3 bid hbidk (List.mem_singleton.mp hkt ▸ hk)
      · intro k hk
        obtain ⟨hk, hne⟩ := mem_keys_mapDelete.mp hk
        intro hkt
        rcases List.mem_append.mp hkt with hkt | hkt
        · exact h6 k hk hkt
        · exact hne (List.mem_singleton.mp hkt)
      · intro k hk
        intro hkt
        rcases List.mem_append.mp hkt with hkt | hkt
        · exact h7 k hk hkt
        · exact h3 bid hbidk (List.mem_singleton.mp hkt ▸ hk)
  case pollProgress bid upd =>
    split at hs
    · exact absurd hs (by simp)
    next sess hget =>
      split at hs
      · exact absurd hs (by simp)
      · obtain rfl := Option.some.inj hs
        have hkeys : activeKeys
            { s with
              active := mapSet s.active bid upd
              pollRetries := mapSet s.pollRetries bid 0 }
            = activeKeys s := mapSet_keys_of_any upd (mapGet_any hget)
        refine ⟨?_, h2, ?_, ?_, h5, ?_, h7⟩
        · rw [hkeys]; exact h1
        · intro k hk
          rw [hkeys] at hk
          exact h3 k hk
        · intro k hk
          rw [hkeys] at hk
          exact h4 k hk
        · intro k hk
          rw [hkeys] at hk
          exact h6 k hk
  case pollTerminal bid upd ciObs =>
    split at hs
    · exact absurd hs (by simp)
    next sess hget =>
      split at hs
      · obtain rfl := Option.some.inj hs
        have hbidk : bid ∈ activeKeys s := mapGet_mem_keys hget
        refine ⟨keys_mapDelete_nodup h1, h2, ?_, ?_, ?_, ?_, ?_⟩
        · intro k hk
          exact h3 k (mem_keys_mapDelete.mp hk).1
        · intro k hk
          obtain ⟨hk, hne⟩ := mem_keys_mapDelete.mp hk
          intro hkt
          rcases List.mem_append.mp hkt with hkt | hkt
          · exact h4 k hk hkt
          · exact hne (List.mem_singleton.mp hkt)
        · intro k hk
          intro hkt
          rcases List.mem_append.mp hkt with hkt | hkt
          · exact h5 k hk hkt
          · exact h3 bid hbidk (List.mem_singleton.mp hkt ▸ hk)
        · intro k hk
          obtain ⟨hk, hne⟩ := mem_keys_mapDelete.mp hk
          intro hkt
          rcases List.mem_append.mp hkt with hkt | hkt
          · exact h6 k hk hkt
          · exact hne (List.mem_singleton.mp hkt)
        · intro k hk
          intro hkt
          rcases List.mem_append.mp hkt with hkt | hkt
          · exact h7 k hk hkt
          · exact h3 bid hbidk (List.mem_singleton.mp hkt ▸ hk)
      · exact absurd hs (by simp)
  case pollFailure bid =>
    split at hs
    · exact absurd hs (by simp)
    next sess hget =>
      split at hs
      · obtain rfl := Option.some.inj hs
        have hbidk : bid ∈ activeKeys s := mapGet_mem_keys hget
        refine ⟨keys_mapDelete_nodup h1, h2, ?_, ?_, ?_, ?_, ?_⟩
        · intro k hk
          exact h3 k (mem_keys_mapDelete.mp hk).1
        · intro k hk
          obtain ⟨hk, hne⟩ := mem_keys_mapDelete.mp hk
          intro hkt
          rcases List.mem_append.mp hkt with hkt | hkt
          · exact h4 k hk hkt
          · exact hne (List.mem_singleton.mp hkt)
        · intro k hk
          intro hkt
          rcases List.mem_append.mp hkt with hkt | hkt
          · exact h5 k hk hkt
          · exact h3 bid hbidk (List.mem_singleton.mp hkt ▸ hk)
        · intro k hk
          obtain ⟨hk, hne⟩ := mem_keys_mapDelete.mp hk
          intro hkt
          rcases List.mem_append.mp hkt with hkt | hkt
          · exact h6 k hk hkt
          · exact hne (List.mem_singleton.mp hkt)
        · intro k hk
          intro hkt
          rcases List.mem_append.mp hkt with hkt | hkt
          · exact h7 k hk hkt
          · exact h3 bid hbidk (List.mem_singleton.mp hkt ▸ hk)
      · obtain rfl := Option.some.inj hs
        exact ⟨h1, h2, h3, h4, h5, h6, h7⟩

theorem reachable_goodState {cap : Nat} {batches : List AlertBatch}
    {s : OrchestratorState} (hid : (batches.map AlertBatch.id).Nodup)
    (h : Reachable (initState cap batches) s) : GoodState s := by
  induction h with
  | refl => exact initState_goodState cap batches hid
  | tail _ e hs ih => exact step_preserves_goodState ih hs

/-- A batch id whose batch has settled: it holds no session, is not queued,
and has been terminated and completed exactly once.  Once settled, an id
stays settled, because every step that appends to the logs does so for an
id currently holding a session. -/
def Settled (bid : String) (s : OrchestratorState) : Prop :=
  bid ∉ activeKeys s ∧ bid ∉ s.pendingIds ∧
  s.terminations.count bid = 1 ∧ s.completions.count bid = 1

theorem count_append_singleton_ne {a b : String} (l : List String)
    (hne : b ≠ a) : (l ++ [b]).count a = l.count a := by
  simp [List.count_append, List.count_singleton, hne]

theorem step_preserves_settled {bid : String} {s : OrchestratorState}
    {e : OEvent} {s' : OrchestratorState} (h : Settled bid s)
    (hs : OStep s e s') : Settled bid s' := by
  obtain ⟨h1, h2, h3, h4⟩ := h
  cases e <;> simp only [OStep, stepFn] at hs
  case startSuccess sess =>
    split at hs
    · exact absurd hs (by simp)
    next bid' rest heq =>
      split at hs
      · obtain rfl := Option.some.inj hs
        have hne : bid' ≠ bid := by
          intro hb
          exact h2 (heq ▸ hb ▸ List.mem_cons_self bid' rest)
        refine ⟨?_, ?_, h3, h4⟩
        · show bid ∉ (mapSet s.active bid' sess).map Prod.fst
          by_cases hany : s.active.any (fun kv => kv.1 = bid') = true
          · rw [mapSet_keys_of_any sess hany]
            exact h1
          · rw [mapSet_keys_of_not_any sess hany]
            intro hmem
            rcases List.mem_append.mp hmem with hmem | hmem
            · exact h1 hmem
            · exact hne (List.mem_singleton.mp hmem).symm
        · intro hmem
          exact h2 (heq ▸ List.mem_cons_of_mem bid' hmem)
      · exact absurd hs (by simp)
  case startRateLimited =>
    split at hs
    · exact absurd hs (by simp)
    next bid' rest heq =>
      split at hs
      · obtain rfl := Option.some.inj hs
        exact ⟨h1, heq ▸ h2, h3, h4⟩
      · exact absurd hs (by simp)
  case startFail =>
    split at hs
    · exact absurd hs (by simp)
    next bid' rest heq =>
      split at hs
      · obtain rfl := Option.some.inj hs
        refine ⟨h1, ?_, h3, h4⟩
        intro hmem
        exact h2 (heq ▸ List.mem_cons_of_mem bid' hmem)
      · exact absurd hs (by simp)
  case timeoutBatch bid' =>
    split at hs
    · exact absurd hs (by simp)
    next sess hget =>
      obtain rfl := Option.some.inj hs
      have hne : bid' ≠ bid := by
        intro hb
        exact h1 (hb ▸ mapGet_mem_keys hget)
      refine ⟨?_, h2, ?_, ?_⟩
      · intro hmem
        exact h1 (mem_keys_mapDelete.mp hmem).1
      · rw [show ({ s with
            batches := updateBatch s.batches bid' fun b => { b with status := .failed }
            active := mapDelete s.active bid'
            pollRetries := mapDelete s.pollRetries bid'
            terminations := s.terminations ++ [bid']
            completions := s.completions ++ [bid'] } : OrchestratorState).terminations
          = s.terminations ++ [bid'] from rfl]
        rw [count_append_singleton_ne _ hne]
        exact h3
      · rw [count_append_singleton_ne _ hne]
        exact h4
  case pollProgress bid' upd =>
    split at hs
    · exact absurd hs (by simp)
    next sess hget =>
      split at hs
      · exact absurd hs (by simp)
      · obtain rfl := Option.some.inj hs
        refine ⟨?_, h2, h3, h4⟩
        show bid ∉ (mapSet s.active bid' upd).map Prod.fst
        rw [mapSet_keys_of_any upd (mapGet_any hget)]
        exact h1
  case pollTerminal bid' upd ciObs =>
    split at hs
    · exact absurd hs (by simp)
    next sess hget =>
      split at hs
      · obtain rfl := Option.some.inj hs
        have hne : bid' ≠ bid := by
          intro hb
          exact h1 (hb ▸ mapGet_mem_keys hget)
        refine ⟨?_, h2, ?_, ?_⟩
        · intro hmem
          exact h1 (mem_keys_mapDelete.mp hmem).1
        · rw [count_append_singleton_ne _ hne]
          exact h3
        · rw [count_append_singleton_ne _ hne]
          exact h4
      · exact absurd hs (by simp)
  case pollFailure bid' =>
    split at hs
    · exact absurd hs (by simp)
    next sess hget =>
      split at hs
      · obtain rfl := Option.some.inj hs
        have hne : bid' ≠ bid := by
          intro hb
          exact h1 (hb ▸ mapGet_mem_keys hget)
        refine ⟨?_, h2, ?_, ?_⟩
        · intro hmem
          exact h1 (mem_keys_mapDelete.mp hmem).1
        · rw [count_append_singleton_ne _ hne]
          exact h3
        · rw [count_append_singleton_ne _ hne]
          exact h4
      · obtain rfl := Option.some.inj hs
        exact ⟨h1, h2, h3, h4⟩

theorem reachable_preserves_settled {bid : String} {s s' : OrchestratorState}
    (h : Settled bid s) (hr : Reachable s s') : Settled bid s' := by
  induction hr with
  | refl => exact h
  | tail _ e hs ih => exact step_preserves_settled ih hs

/-- C6: when an active batch's per-batch wall-clock timeout fires, the step
marks that batch failed, terminates its remote session exactly once, and
emits exactly one completion callback for it, and both counts stay at one
for the remainder of the run. -/
theorem timeout_fails_batch_exactly_once (cap : Nat)
    (batches : List AlertBatch) (bid : String)
    (s s' s'' : OrchestratorState)
    (hid : (batches.map AlertBatch.id).Nodup)
    (hreach : Reachable (initState cap batches) s)
    (hstep : OStep s (.timeoutBatch bid) s')
    (hafter : Reachable s' s'') :
    (∀ b ∈ s'.batches, b.id = bid → b.status = .failed) ∧
    s'.terminations.count bid = 1 ∧ s'.completions.count bid = 1 ∧
    s''.terminations.count bid = 1 ∧ s''.completions.count bid = 1 := by
  have hg : GoodState s := reachable_goodState hid hreach
  simp only [OStep, stepFn] at hstep
  split at hstep
  · exact absurd hstep (by simp)
  next sess hget =>
    obtain rfl := Option.some.inj hstep
    have hbidk : bid ∈ activeKeys s := mapGet_mem_keys hget
    have hterm0 : s.terminations.count bid = 0 :=
      List.count_eq_zero.mpr (hg.activeTerm bid hbidk)
    have hcompl0 : s.completions.count bid = 0 :=
      List.count_eq_zero.mpr (hg.activeCompl bid hbidk)
    have hterm1 : (s.terminations ++ [bid]).count bid = 1 := by
      simp [List.count_append, hterm0]
    have hcompl1 : (s.completions ++ [bid]).count bid = 1 := by
      simp [List.count_append, hcompl0]
    have hsettled : Settled bid
        { s with
          batches := updateBatch s.batches bid fun b => { b with status := .failed }
          active := mapDelete s.active bid
          pollRetries := mapDelete s.pollRetries bid
          terminations := s.terminations ++ [bid]
          completions := s.completions ++ [bid] } := by
      refine ⟨?_, hg.activePending bid hbidk, hterm1, hcompl1⟩
      intro hmem
      exact (mem_keys_mapDelete.mp hmem).2 rfl
    have hsettled' := reachable_preserves_settled hsettled hafter
    refine ⟨?_, hterm1, hcompl1, hsettled'.2.2.1, hsettled'.2.2.2⟩
    intro b hb hbid
    simp only [updateBatch, List.mem_map] at hb
    obtain ⟨b0, _, rfl⟩ := hb
    by_cases hb0 : b0.id = bid
    · rw [if_pos hb0]
    · rw [if_neg hb0] at hbid ⊢
      exact absurd hbid hb0

/-- The session created for the single-batch example runs. -/
def exampleRunSession : DevinSession :=
  { sessionId := "s1", status := .working }

/-- Initial state of a run over one pending batch with ceiling 3. -/
def exampleRunS0 : OrchestratorState :=
  initState 3 [mkExampleBatch "b1" .critical]

/-- State after the batch is started and holds a session. -/
def exampleRunS1 : OrchestratorState :=
  (stepFn exampleRunS0 (.startSuccess exampleRunSession)).getD exampleRunS0

/-- State after the batch's per-batch timeout fires. -/
def exampleRunTimeoutS2 : OrchestratorState :=
  (stepFn exampleRunS1 (.timeoutBatch "b1")).getD exampleRunS1

/-- Witness for C6 at a concrete two-step run ending in a timeout. -/
theorem timeout_fails_batch_exactly_once_witness :
    (([mkExampleBatch "b1" .critical].map AlertBatch.id).Nodup ∧
      Reachable (initState 3 [mkExampleBatch "b1" .critical]) exampleRunS1 ∧
      OStep exampleRunS1 (.timeoutBatch "b1") exampleRunTimeoutS2 ∧
      Reachable exampleRunTimeoutS2 exampleRunTimeoutS2) ∧
    ((∀ b ∈ exampleRunTimeoutS2.batches, b.id = "b1" → b.status = .failed) ∧
      exampleRunTimeoutS2.terminations.count "b1" = 1 ∧
      exampleRunTimeoutS2.completions.count "b1" = 1 ∧
      exampleRunTimeoutS2.terminations.count "b1" = 1 ∧
      exampleRunTimeoutS2.completions.count "b1" = 1) :=
  ⟨⟨by decide,
      Reachable.tail (Reachable.refl _) (.startSuccess exampleRunSession) (by decide),
      by decide, Reachable.refl _⟩,
    timeout_fails_batch_exactly_once 3 [mkExampleBatch "b1" .critical] "b1"
      exampleRunS1 exampleRunTimeoutS2 exampleRunTimeoutS2 (by decide)
      (Reachable.tail (Reachable.refl _) (.startSuccess exampleRunSession) (by decide))
      (by decide) (Reachable.refl _)⟩

/-- A terminal poll snapshot carrying a produced PR URL and progress 100. -/
def exampleGateUpd : DevinSession :=
  { sessionId := "s1"
    status := .working
    prUrl := some "https://github.com/acme/app/pull/7"
    structuredOutput := some { progress := 100 } }

/-- CI observations that exhaust the gate's two attempts: two failures. -/
def exampleGateObs : List CIStatus := [.failure, .failure]

/-- State after the terminal poll whose gate fails. -/
def exampleGateS2 : OrchestratorState :=
  (stepFn exampleRunS1 (.pollTerminal "b1" exampleGateUpd exampleGateObs)).getD
    exampleRunS1

/-- Counterexample for C1: a concrete run in which the remote task
terminates with a produced PR URL, the gate returns false, and the batch is
nevertheless marked completed - the ordinary success status, not a distinct
failed-with-artifact shape (the batch status type has no such shape; the
only trace of the artifact is the recorded prUrl). -/
theorem gateFailure_marked_completed :
    OStep exampleRunS0 (.startSuccess exampleRunSession) exampleRunS1 ∧
    OStep exampleRunS1 (.pollTerminal "b1" exampleGateUpd exampleGateObs)
      exampleGateS2 ∧
    waitForCIChecks exampleGateObs = false ∧
    optTruthy (effectivePrUrl exampleGateUpd) = true ∧
    exampleGateS2.batches.map AlertBatch.status = [.completed] ∧
    exampleGateS2.batches.map AlertBatch.prUrl =
      [some "https://github.com/acme/app/pull/7"] := by
  exact ⟨by decide, by decide, rfl, rfl, by decide, by decide⟩

/-- C1, amended: when a batch's task reaches a terminal condition with a
produced artifact but the gate returns false, the batch's terminal status is
computed by the same fallback formula as the no-artifact case (completed
when progress-complete or raw status finished, failed otherwise); gate
failure produces no distinct terminal status, and the artifact reference is
recorded in the batch's prUrl field. -/
theorem gateFailure_falls_back_to_terminal_status
    (s s' : OrchestratorState) (bid : String) (upd : DevinSession)
    (ciObs : List CIStatus)
    (hstep : OStep s (.pollTerminal bid upd ciObs) s')
    (hgate : waitForCIChecks ciObs = false) :
    ∀ b ∈ s'.batches, b.id = bid →
      b.status = terminalBatchStatus upd ∧
      (optTruthy (effectivePrUrl upd) = true → b.prUrl = effectivePrUrl upd) := by
  simp only [OStep, stepFn] at hstep
  split at hstep
  · exact absurd hstep (by simp)
  next sess hget =>
    split at hstep
    · obtain rfl := Option.some.inj hstep
      intro b hb hbid
      simp only [updateBatch, List.mem_map] at hb
      obtain ⟨b0, _, rfl⟩ := hb
      by_cases hb0 : b0.id = bid
      · rw [if_pos hb0]
        constructor
        · show (if optTruthy (effectivePrUrl upd) then
              if waitForCIChecks ciObs then BatchStatus.completed
              else terminalBatchStatus upd
            else terminalBatchStatus upd) = terminalBatchStatus upd
          rw [hgate]
          by_cases hpr : optTruthy (effectivePrUrl upd) = true <;> simp [hpr]
        · intro hpr
          show (if optTruthy (effectivePrUrl upd) then effectivePrUrl upd
              else b0.prUrl) = effectivePrUrl upd
          rw [if_pos hpr]
      · rw [if_neg hb0] at hbid
        exact absurd hbid hb0
    · exact absurd hstep (by simp)

/-- Witness for the amended C1 at the concrete gate-failing run. -/
theorem gateFailure_falls_back_witness :
    (OStep exampleRunS1 (.pollTerminal "b1" exampleGateUpd exampleGateObs)
        exampleGateS2 ∧
      waitForCIChecks exampleGateObs = false) ∧
    (∀ b ∈ exampleGateS2.batches, b.id = "b1" →
      b.status = terminalBatchStatus exampleGateUpd ∧
      (optTruthy (effectivePrUrl exampleGateUpd) = true →
        b.prUrl = effectivePrUrl exampleGateUpd)) :=
  ⟨⟨by decide, rfl⟩,
    gateFailure_falls_back_to_terminal_status exampleRunS1 exampleGateS2 "b1"
      exampleGateUpd exampleGateObs (by decide) rfl⟩

/-- C10: every raw remote-status string outside the recognized vocabulary
maps to the non-terminal status pending; pending is not a complete session
status; the terminal poll step requires a complete status or the
progress-100-with-artifact signal; and a batch leaves the active map only
through its timeout, a terminal poll, or poll-failure escalation - never
through an unrecognized raw status alone. -/
theorem unrecognized_status_maps_to_pending :
    (∀ raw : String, strToLower raw ∉ recognizedStatusStrings →
        mapStatus raw = .pending) ∧
    isSessionComplete .pending = false ∧
    (∀ (s : OrchestratorState) (bid : String) (upd : DevinSession)
        (ciObs : List CIStatus) (s' : OrchestratorState),
        OStep s (.pollTerminal bid upd ciObs) s' →
        isSessionComplete upd.status = true ∨ isProgressComplete upd = true) ∧
    (∀ (s : OrchestratorState) (e : OEvent) (s' : OrchestratorState)
        (bid : String), OStep s e s' →
        bid ∈ activeKeys s → bid ∉ activeKeys s' →
        e = .timeoutBatch bid ∨
        (∃ upd ciObs, e = .pollTerminal bid upd ciObs) ∨
        e = .pollFailure bid) := by
  refine ⟨?_, rfl, ?_, ?_⟩
  · intro raw h
    simp only [recognizedStatusStrings, List.mem_cons, List.not_mem_nil,
      or_false, not_or] at h
    obtain ⟨hw, hb, hf, he, hs1, hs2, hs3, hr1, hr2, hr3⟩ := h
    simp only [mapStatus]
    rw [if_neg hw, if_neg hb, if_neg hf, if_neg he,
      if_neg (by simp [hs1, hs2, hs3]), if_neg (by simp [hr1, hr2, hr3])]
  · intro s bid upd ciObs s' hstep
    simp only [OStep, stepFn] at hstep
    split at hstep
    · exact absurd hstep (by simp)
    · split at hstep
      next hguard =>
        rcases Bool.or_eq_true_iff.mp hguard with hg | hg
        · exact Or.inl hg
        · exact Or.inr hg
      · exact absurd hstep (by simp)
  · intro s e s' bid hstep hmem hnot
    cases e <;> simp only [OStep, stepFn] at hstep
    case startSuccess sess =>
      split at hstep
      · exact absurd hstep (by simp)
      next bid' rest heq =>
        split at hstep
        · obtain rfl := Option.some.inj hstep
          exfalso
          apply hnot
          show bid ∈ (mapSet s.active bid' sess).map Prod.fst
          by_cases hany : s.active.any (fun kv => kv.1 = bid') = true
          · rw [mapSet_keys_of_any sess hany]
            exact hmem
          · rw [mapSet_keys_of_not_any sess hany]
            exact List.mem_append_left _ hmem
        · exact absurd hstep (by simp)
    case startRateLimited =>
      split at hstep
      · exact absurd hstep (by simp)
      · split at hstep
        · obtain rfl := Option.some.inj hstep
          exact absurd hmem hnot
        · exact absurd hstep (by simp)
    case startFail =>
      split at hstep
      · exact absurd hstep (by simp)
      · split at hstep
        · obtain rfl := Option.some.inj hstep
          exact absurd hmem hnot
        · exact absurd hstep (by simp)
    case timeoutBatch bid' =>
      split at hstep
      · exact absurd hstep (by simp)
      · obtain rfl := Option.some.inj hstep
        by_cases hbb : bid' = bid
        · exact Or.inl (by rw [hbb])
        · exfalso
          apply hnot
          show bid ∈ (mapDelete s.active bid').map Prod.fst
          exact mem_keys_mapDelete.mpr ⟨hmem, fun hc => hbb hc.symm⟩
    case pollProgress bid' upd =>
      split at hstep
      next sess hget =>
        exact absurd hstep (by simp)
      next sess hget =>
        split at hstep
        · exact absurd hstep (by simp)
        · obtain rfl := Option.some.inj hstep
          exfalso
          apply hnot
          show bid ∈ (mapSet s.active bid' upd).map Prod.fst
          rw [mapSet_keys_of_any upd (mapGet_any hget)]
          exact hmem
    case pollTerminal bid' upd ciObs =>
      split at hstep
      · exact absurd hstep (by simp)
      · split at hstep
        · obtain rfl := Option.some.inj hstep
          by_cases hbb : bid' = bid
          · exact Or.inr (Or.inl ⟨upd, ciObs, by rw [hbb]⟩)
          · exfalso
            apply hnot
            show bid ∈ (mapDelete s.active bid').map Prod.fst
            exact mem_keys_mapDelete.mpr ⟨hmem, fun hc => hbb hc.symm⟩
        · exact absurd hstep (by simp)
    case pollFailure bid' =>
      split at hstep
      · exact absurd hstep (by simp)
      · split at hstep
        · obtain rfl := Option.some.inj hstep
          by_cases hbb : bid' = bid
          · exact Or.inr (Or.inr (by rw [hbb]))
          · exfalso
            apply hnot
            show bid ∈ (mapDelete s.active bid').map Prod.fst
            exact mem_keys_mapDelete.mpr ⟨hmem, fun hc => hbb hc.symm⟩
        · obtain rfl := Option.some.inj hstep
          exact absurd hmem hnot

/-- Witness for C10 at the raw status string queued and the concrete
gate-failing run's terminal poll step. -/
theorem unrecognized_status_maps_to_pending_witness :
    (strToLower "queued" ∉ recognizedStatusStrings ∧
      OStep exampleRunS1 (.pollTerminal "b1" exampleGateUpd exampleGateObs)
        exampleGateS2) ∧
    mapStatus "queued" = .pending ∧
    (isSessionComplete exampleGateUpd.status = true ∨
      isProgressComplete exampleGateUpd = true) :=
  ⟨⟨by decide, by decide⟩,
    unrecognized_status_maps_to_pending.1 "queued" (by decide),
    unrecognized_status_maps_to_pending.2.2.1 exampleRunS1 "b1" exampleGateUpd
      exampleGateObs exampleGateS2 (by decide)⟩

end Cognition
